import Mathlib

/-!
Verification development for the pology PO-catalog library.

Shallow embedding of the parts of the source needed by the claims:

* `src/file/message.py` — the message entry data model (`Message_base`),
  its derived fields (`fuzzy`, `translated`, `untranslated`, `key`), the
  `fuzzy` setter, and `merge`.
* `src/misc/resolve.py` — `resolve_entities`, `resolve_alternatives`,
  `first_to_case`, `remove_accelerator`.
* `src/misc/rules.py` — `_parseRuleLine`, `_findEndQuote`, and the
  directive dispatch of `loadRulesFromFile` relevant to rule identifiers.
* `src/pology/catalog.py` — the line-level PO parser state machine
  (`_parse_po_file`), the line-cache handling, and the serialization
  pass of `Catalog.sync` (obsolete reordering and line assembly).

Conventions: Python text is modelled as `String` where the code treats
lines atomically, and as `List Char` where the code walks a text by
character positions.  Python integer positions that can be `-1` are
modelled as `Int` or via `Option Nat` as noted at each definition.
Fallible code returns `Except`/`Option`.  Loops whose termination is in
question are modelled with an explicit fuel parameter.
-/

namespace Pology

/-! ## Message entry model (src/file/message.py)

The containers `Monlist`/`Monset`/`Monpair` come from
`pology.misc.monitored`, which is not part of the sources; per the spec
(§3, Monitored container kit) they behave as an ordinary list / set /
pair plus modification counters.  A `Monset` is modelled as a
duplicate-free list of strings; a `Monlist` as a list; a `Monpair` as a
pair.  Modification counters are not part of the message value model;
where a result depends on them (the return value of `merge`) this is
noted at the definition.
-/

/-- Message entry: the read-write fields of `Message_base`
(src/file/message.py, `_Message_spec`). -/
structure Msg where
  manual_comment : List String
  auto_comment : List String
  source : List (String × Int)
  flag : List String
  obsolete : Bool
  msgctxt_previous : Option String
  msgid_previous : Option String
  msgid_plural_previous : Option String
  msgctxt : Option String
  msgid : String
  msgid_plural : Option String
  msgstr : List String
  refline : Int
  refentry : Int
deriving DecidableEq

/-- Monset add — set insertion (spec §3: a set of strings). -/
def monsetAdd (s : List String) (x : String) : List String :=
  if x ∈ s then s else s ++ [x]

/-- Monset remove — set removal (spec §3). -/
def monsetRemove (s : List String) (x : String) : List String :=
  s.filter (fun y => y ≠ x)

/-- Derived field `fuzzy` (message.py:321-322):
`return u"fuzzy" in self.flag`. -/
def Msg.fuzzy (m : Msg) : Bool :=
  "fuzzy" ∈ m.flag

/-- Derived field `translated` (message.py:279-288): false when fuzzy,
else true iff some `msgstr` element is non-empty (Python string truth). -/
def Msg.translated (m : Msg) : Bool :=
  if m.fuzzy then false
  else m.msgstr.any (fun v => v ≠ "")

/-- Derived field `untranslated` (message.py:290-296): false when fuzzy,
else true iff every `msgstr` element is empty. -/
def Msg.untranslated (m : Msg) : Bool :=
  if m.fuzzy then false
  else !(m.msgstr.any (fun v => v ≠ ""))

/-- Optional string serialization used by `_compose` (message.py:333-334):
`None` becomes the byte 0, a string stays itself. -/
def composeOptStr : Option String → String
  | none => "\x00"
  | some s => s

/-- Derived field `key` (message.py:298-299, via `_compose` on
`msgctxt`, `msgid` joined with the byte 4). -/
def Msg.key (m : Msg) : String :=
  String.intercalate "\x04" [composeOptStr m.msgctxt, m.msgid]

/-- Attribute setter for `fuzzy` (message.py:381-389): assigning true
adds the flag; assigning anything else removes the flag when present and
sets the three previous-fields to `None`. -/
def Msg.setFuzzy (m : Msg) (val : Bool) : Msg :=
  if val then
    { m with flag := monsetAdd m.flag "fuzzy" }
  else
    { m with flag := monsetRemove m.flag "fuzzy",
             msgctxt_previous := none,
             msgid_previous := none,
             msgid_plural_previous := none }

/-- Net effect of `_overwrite_list` (message.py:573-590): the target
list is made equal to the other list by element assignment, appends and
pops; the result is the other list. -/
def overwriteList (_self other : List α) : List α :=
  other

/-- Error raised by `merge` on differing keys (message.py:611-612). -/
inductive MergeErr where
  | keyMismatch
deriving DecidableEq

/-- Copy of the three previous-fields from another message
(message.py:625-627 and 655-657). -/
def Msg.copyPrevious (m o : Msg) : Msg :=
  { m with msgctxt_previous := o.msgctxt_previous,
           msgid_previous := o.msgid_previous,
           msgid_plural_previous := o.msgid_plural_previous }

/-- Merge of another message with the same key
(`Message_base.merge`, message.py:593-663).

The returned Bool models `modcount_before < self.modcount`: the
monitored setters count value-changing assignments only, and no
assignment sequence in `merge` changes a field and then restores its
old value, so the Bool is equivalent to the final message differing
from the initial one (`refline`/`refentry` are never assigned here). -/
def Msg.merge (m o : Msg) : Except MergeErr (Msg × Bool) :=
  if m.key ≠ o.key then
    .error .keyMismatch
  else if m.obsolete || o.obsolete then
    .ok (m, false)
  else
    let m' :=
      if m.msgid_plural.isNone && o.msgid_plural.isSome then
        -- Plural always overrides non-plural (message.py:621-630).
        let m1 := if o.manual_comment ≠ [] then
                    { m with manual_comment :=
                        overwriteList m.manual_comment o.manual_comment }
                  else m
        let m2 := if o.fuzzy then m1.copyPrevious o else m1
        let m3 := { m2 with msgid_plural := o.msgid_plural }
        let m4 := { m3 with msgstr := overwriteList m3.msgstr o.msgstr }
        m4.setFuzzy o.fuzzy
      else if (m.translated && o.translated)
              || (m.fuzzy && o.fuzzy)
              || (m.untranslated && o.untranslated) then
        -- Same translation state (message.py:633-640).
        let m1 := if m.manual_comment = [] then
                    { m with manual_comment :=
                        overwriteList m.manual_comment o.manual_comment }
                  else m
        if o.msgid_plural.isSome then
          { m1 with msgid_plural := o.msgid_plural }
        else m1
      else if m.fuzzy && o.translated then
        -- Fuzzy self, translated other (message.py:642-649).
        let m1 := { m with manual_comment :=
                      overwriteList m.manual_comment o.manual_comment }
        if m1.msgid_plural.isNone || o.msgid_plural.isSome then
          let m2 := if o.msgid_plural.isSome then
                      { m1 with msgid_plural := o.msgid_plural }
                    else m1
          let m3 := { m2 with msgstr := overwriteList m2.msgstr o.msgstr }
          if m3.msgid_plural = o.msgid_plural then m3.setFuzzy false else m3
        else m1
      else if m.untranslated && (o.translated || o.fuzzy) then
        -- Untranslated self (message.py:651-661).
        let m1 := { m with manual_comment :=
                      overwriteList m.manual_comment o.manual_comment }
        if m1.msgid_plural.isNone || o.msgid_plural.isSome then
          let m2 := if o.fuzzy then m1.copyPrevious o else m1
          let m3 := if o.msgid_plural.isSome then
                      { m2 with msgid_plural := o.msgid_plural }
                    else m2
          let m4 := { m3 with msgstr := overwriteList m3.msgstr o.msgstr }
          m4.setFuzzy o.fuzzy
        else m1
      else
        m
    .ok (m', decide (m' ≠ m))

/-- Sample message with key ("k", "a"), obsolete. -/
def msgObsA : Msg :=
  ⟨[], [], [], [], true, none, none, none, some "k", "a", none, ["x"], -1, -1⟩

/-- Sample message with key ("k", "b"), not obsolete. -/
def msgLiveB : Msg :=
  ⟨[], [], [], [], false, none, none, none, some "k", "b", none, [""], -1, -1⟩

/-- Sample message with key ("k", "a"), not obsolete. -/
def msgLiveA : Msg :=
  ⟨[], [], [], [], false, none, none, none, some "k", "a", none, ["y"], -1, -1⟩

/-! ## Python text primitives

Texts walked by character position are modelled as `List Char`.
`pyFind t pat start` models Python `t.find(pat, start)` via `Option`
(`none` for `-1`).  `pySlice t a b` models `t[a:b]` for `0 ≤ a, b`.
-/

/-- Test whether `pat` occurs in `t` starting exactly at position `p`. -/
def isSubAt (t pat : List Char) (p : Nat) : Bool :=
  pat.isPrefixOf (t.drop p)

/-- Python `t.find(pat, start)`: smallest `p ≥ start` such that `pat`
occurs at `p`, as `Option` (`none` for `-1`). -/
def pyFind (t pat : List Char) (start : Nat) : Option Nat :=
  (List.range (t.length + 1)).find? (fun p => start ≤ p && isSubAt t pat p)

/-- Python slice `t[a:b]` for non-negative bounds. -/
def pySlice (t : List Char) (a b : Nat) : List Char :=
  (t.drop a).take (b - a)

/-- Python `t[p]` as an `Option`. -/
def pyAt (t : List Char) (p : Nat) : Option Char :=
  t.get? p

/-- Whether the one-character slice `t[p:p+1]` is alphanumeric
(false for the empty slice past the end).  Python `unicode.isalnum` is
modelled by `Char.isAlphanum`; the texts in the claims are ASCII. -/
def isAlnumAt (t : List Char) (p : Nat) : Bool :=
  match pyAt t p with
  | none => false
  | some c => c.isAlphanum

/-- Character class `\w` of the entity regex (no `re.U`; ASCII). -/
def isWordChar (c : Char) : Bool :=
  c.isAlphanum || c = '_'

/-- Character class `[\w\d._:-]` of `_entity_tail_rx` (resolve.py:21). -/
def entNameTailChar (c : Char) : Bool :=
  isWordChar c || c.isDigit || c = '.' || c = '_' || c = ':' || c = '-'

/-- Structural worker for `scanWhile`; the first argument is the
number of positions left to examine (`t.length - p` at the start). -/
def scanWhileAux (f : Char → Bool) (t : List Char) : Nat → Nat → Nat
  | 0, p => p
  | k + 1, p =>
    match t.get? p with
    | none => p
    | some c => if f c then scanWhileAux f t k (p + 1) else p

/-- First position `q ≥ p` with `q = t.length` or `¬f (t[q])`
(the end of a greedy character-class scan). -/
def scanWhile (f : Char → Bool) (t : List Char) (p : Nat) : Nat :=
  scanWhileAux f t (t.length - p) p

/-- Match of `_entity_tail_rx` = `([\w_:][\w\d._:-]*);` (resolve.py:21)
at position `p` of `t`: returns the group (the entity name) and the end
position of the whole match (one past the `;`), or `none`.  The regex
is deterministic since `;` is not in the repeated class. -/
def entityTailMatch (t : List Char) (p : Nat) : Option (List Char × Nat) :=
  match pyAt t p with
  | none => none
  | some c =>
    if isWordChar c || c = ':' then
      let q := scanWhile entNameTailChar t (p + 1)
      if pyAt t q = some ';' then some (pySlice t p q, q + 1) else none
    else none

/-! ## resolve_alternatives (src/misc/resolve.py:158-277)

The scanning position `p` of the Python code can be `-1` (initially,
and again after the inner `for` loop breaks on a failed `find`), so it
is modelled as `Int`.  The outer `while True` loop does not always
terminate (see the C4 theorem), hence an explicit fuel parameter; the
reporting to standard output (`srcname`) has no effect on the returned
value and is omitted.  Negative selection indices use Python list
indexing from the end (the documented domain is `select ≥ 1`). -/

/-- Python `alts[isel]` with Python index semantics. -/
def altsIdx (alts : List (List Char)) (isel : Int) : List Char :=
  if 0 ≤ isel then alts.getD isel.toNat []
  else alts.getD (alts.length - (-isel).toNat) []

/-- Substitution of the selected alternative into `fmtstr`, which per
the parameter documentation holds a single `%s` directive
(`alt = fmtstr % alt`, resolve.py:267). -/
def fmtSubst (fmtstr alt : List Char) : List Char :=
  match pyFind fmtstr ['%', 's'] 0 with
  | none => fmtstr
  | some q => pySlice fmtstr 0 q ++ alt ++ fmtstr.drop (q + 2)

/-- Inner `for i in range(total)` loop of `resolve_alternatives`
(resolve.py:250-260): collect alternatives separated by `sep` starting
after position `p`; on a failed `find` return the collected prefix,
position `-1` and the malformed indicator. -/
def altInner (text : List Char) (sep : Char) :
    Nat → Int → List (List Char) → (List (List Char) × Int × Bool)
  | 0, p, alts => (alts, p, false)
  | n + 1, p, alts =>
      match pyFind text [sep] (p + 1).toNat with
      | none => (alts, -1, true)
      | some q => altInner text sep n q (alts ++ [pySlice text (p + 1).toNat q])

/-- Outer `while True` loop of `resolve_alternatives`
(resolve.py:223-271), with fuel.  State: scan position `p` (may be
`-1`), accumulated text, resolved count, malformed indicator. -/
def resolveAltLoop (text : List Char) (select : Int) (total : Nat)
    (fmtstr : Option (List Char)) (condf : Option (List (List Char) → Bool))
    (althead : List Char) :
    Nat → Int → List Char → Nat → Bool → Option (List Char × Nat × Bool)
  | 0, _, _, _, _ => none
  | fuel + 1, p, newText, nresolved, malformed =>
      let pp := (p + 1).toNat
      match pyFind text althead pp with
      | none => some (newText ++ text.drop pp, nresolved, malformed)
      | some ps =>
        let newText := newText ++ pySlice text pp ps
        if text.length < ps + althead.length + 2 then
          -- malformed: truncated directive, breaks the while loop.
          some (newText, nresolved, true)
        else
          let psep := ps + althead.length
          let sep := (pyAt text psep).getD ' '
          let res := altInner text sep total (psep : Int) []
          let alts := res.1
          let pEnd := res.2.1
          let malformed := malformed || res.2.2
          let isel := select - 1
          if isel < (alts.length : Int)
              && (condf.elim true (fun f => f alts)) then
            let alt := altsIdx alts isel
            let alt := fmtstr.elim alt (fun f => fmtSubst f alt)
            resolveAltLoop text select total fmtstr condf althead
              fuel pEnd (newText ++ alt) (nresolved + 1) malformed
          else
            resolveAltLoop text select total fmtstr condf althead
              fuel pEnd (newText ++ pySlice text ps (pEnd + 1).toNat)
              nresolved malformed

/-- Function `resolve_alternatives(text, select, total, fmtstr, …)`
with fuel for the outer loop: `none` models non-termination within the
given fuel.  The final fix-up (resolve.py:273-275) restores the
original text and zero count when any directive was malformed. -/
def resolve_alternatives (text : List Char) (select : Int) (total : Nat)
    (fmtstr : Option (List Char)) (condf : Option (List (List Char) → Bool))
    (althead : List Char) (fuel : Nat) :
    Option (List Char × Nat × Bool) :=
  match resolveAltLoop text select total fmtstr condf althead
      fuel (-1) [] 0 false with
  | none => none
  | some (nt, nr, mal) =>
      if mal then some (text, 0, true) else some (nt, nr, mal)

/-! ## remove_accelerator (src/misc/resolve.py:503-587) -/

/-- Python `str.lstrip()`. -/
def pyLstrip (t : List Char) : List Char :=
  t.dropWhile Char.isWhitespace

/-- Python `str.rstrip()`. -/
def pyRstrip (t : List Char) : List Char :=
  (t.reverse.dropWhile Char.isWhitespace).reverse

/-- Backward scan over non-alphanumerics of the CJK-group edge check
(resolve.py:565-568).  The argument and result are the Python index
plus one (0 stands for index `-1`); the result is the final `p1` after
the `p1 += 1` fix-up. -/
def scanBackNonAlnum (t : List Char) : Nat → Nat
  | 0 => 0
  | k + 1 => if !(isAlnumAt t k) then scanBackNonAlnum t k else k + 1

/-- Forward scan over non-alphanumerics of the CJK-group edge check
(resolve.py:569-571), before the final `p2 -= 1`: first position
`q ≥ p` with `q = t.length` or `t[q]` alphanumeric. -/
def scanFwdNonAlnum (t : List Char) (p : Nat) : Nat :=
  scanWhileAux (fun c => !c.isAlphanum) t (t.length - p) p

/-- Removal of a valid accelerator marker of length `alen` at position
`p`, including the removal of a leading/trailing CJK-style
parenthesized group (resolve.py:557-576). -/
def removeAccelAt (text : List Char) (p alen : Nat) : List Char :=
  let text := pySlice text 0 p ++ text.drop (p + alen)
  if pySlice text (p - 1) p = ['('] && pyAt text (p + 1) = some ')' then
    let tlen := text.length
    let p1 := scanBackNonAlnum text (p - 1)
    let p2 := scanFwdNonAlnum text (p + 2) - 1
    if p1 = 0 then
      pyLstrip (pySlice text 0 (p - 1)) ++ text.drop (p2 + 1)
    else if p2 + 1 = tlen then
      pySlice text 0 p1 ++ pyRstrip (text.drop (p + 2))
    else text
  else text

/-- Inner `while True` loop of `remove_accelerator` for one marker
(resolve.py:543-585).  Fuel: the loop terminates for non-empty markers
(each step advances the scan position), `t.length + 2` is sufficient;
an empty marker would loop forever in Python (it always reports an
escaped marker at the found position), modelled by fuel exhaustion. -/
def removeAccelLoop (accel : List Char) : Nat → List Char → Nat → Option (List Char)
  | 0, _, _ => none
  | fuel + 1, text, p =>
    match pyFind text accel p with
    | none => some text
    | some q =>
      let alen := accel.length
      if isAlnumAt text (q + alen) then
        if accel = ['&'] then
          match entityTailMatch text (q + alen) with
          | some r => removeAccelLoop accel fuel text r.2
          | none => some (removeAccelAt text q alen)
        else some (removeAccelAt text q alen)
      else
        if pySlice text (q + alen) (q + 2 * alen) = accel then
          removeAccelLoop accel fuel
            (pySlice text 0 q ++ text.drop (q + alen)) (q + alen)
        else
          removeAccelLoop accel fuel text (q + alen)

/-- Usual accelerator markers tried in greedy mode (resolve.py:501). -/
def usualAccels : List (List Char) := [['_'], ['&'], ['~'], ['^']]

/-- Function `remove_accelerator(text, accels, greedy)`
(resolve.py:503-587).  With `accels = None` and `greedy` false the text
is returned as is; each marker of the list is processed by one run of
the inner loop. -/
def remove_accelerator (text : List Char) (accels : Option (List (List Char)))
    (greedy : Bool) : Option (List Char) :=
  let run := fun (as : List (List Char)) =>
    as.foldlM (fun t a => removeAccelLoop a (t.length + 2) t 0) text
  match accels with
  | none => if !greedy then some text else run usualAccels
  | some as => run as

/-! ## first_to_case and resolve_entities (src/misc/resolve.py:78-418) -/

/-- Default alternatives directive head (resolve.py:18). -/
def DEFAULT_ALTHEAD : List Char := ['~', '@']

/-- Loop of `first_to_case` (resolve.py:337-394).  The Python loop
advances `i` by 1 each iteration, except in the
alternatives-directive-head branch where it advances by 3 (the code
adds the literal 2 for the head, then 1; resolve.py:353).
`altsep` is only read after having been set (guarded by
`remalts ≠ 0`); its initial value is immaterial. -/
def firstToCaseLoop (text : List Char) (upper : Bool) (nalts : Nat)
    (althead : List Char) (i : Nat) (remalts : Nat) (checkcase intag : Bool)
    (ncchanged : Nat) (textcc : List Char) (altsep : Char) : List Char :=
  if h : i < text.length then
    let c := text.get ⟨i, h⟩
    if c = '<' then
      let textcc := textcc ++ [c]
      if ncchanged > 0 && remalts = 0 then textcc ++ text.drop (i + 1)
      else firstToCaseLoop text upper nalts althead (i + 1)
        remalts checkcase true ncchanged textcc altsep
    else if c = '>' then
      let textcc := textcc ++ [c]
      if ncchanged > 0 && remalts = 0 then textcc ++ text.drop (i + 1)
      else firstToCaseLoop text upper nalts althead (i + 1)
        remalts checkcase false ncchanged textcc altsep
    else if !intag && nalts ≠ 0 && remalts = 0 && isSubAt text althead i then
      if i + 2 ≥ text.length then text  -- malformed directive, bail out
      else
        let altsep := (pyAt text (i + 2)).getD altsep
        let textcc := textcc ++ pySlice text i (i + 3)
        -- remalts becomes nalts > 0, so the early-exit test is false.
        firstToCaseLoop text upper nalts althead (i + 3)
          nalts true intag ncchanged textcc altsep
    else if !intag && remalts ≠ 0 && c = altsep then
      let remalts := remalts - 1
      let textcc := textcc ++ [c]
      if ncchanged > 0 && remalts = 0 then textcc ++ text.drop (i + 1)
      else firstToCaseLoop text upper nalts althead (i + 1)
        remalts true intag ncchanged textcc altsep
    else if !intag && checkcase && c.isAlpha then
      let cc := if upper then c.toUpper else c.toLower
      let textcc := textcc ++ [cc]
      let ncchanged := ncchanged + 1
      if ncchanged > 0 && remalts = 0 then textcc ++ text.drop (i + 1)
      else firstToCaseLoop text upper nalts althead (i + 1)
        remalts false intag ncchanged textcc altsep
    else
      let textcc := textcc ++ [c]
      if ncchanged > 0 && remalts = 0 then textcc ++ text.drop (i + 1)
      else firstToCaseLoop text upper nalts althead (i + 1)
        remalts checkcase intag ncchanged textcc altsep
  else textcc
termination_by text.length - i

/-- Function `first_to_case(text, upper, nalts, althead)`
(resolve.py:300-394). -/
def first_to_case (text : List Char) (upper : Bool) (nalts : Nat)
    (althead : List Char) : List Char :=
  firstToCaseLoop text upper nalts althead 0 0 true false 0 [] ' '

/-- Shortcut `first_to_upper` (resolve.py:397-406). -/
def first_to_upper (text : List Char) (nalts : Nat) (althead : List Char) :
    List Char :=
  first_to_case text true nalts althead

/-- Shortcut `first_to_lower` with default arguments
(resolve.py:409-418), as called at resolve.py:97. -/
def first_to_lower (text : List Char) : List Char :=
  first_to_case text false 0 DEFAULT_ALTHEAD

/-- Dictionary lookup in the entity map, modelled as an association
list. -/
def entLookup (entities : List (List Char × List Char)) (n : List Char) :
    Option (List Char) :=
  (entities.find? (fun pr => pr.1 = n)).map (fun pr => pr.2)

/-- Position of a found pattern is inside the text (for non-empty
patterns); a proof term used by the termination arguments below. -/
def pyFind_lt_length {t pat : List Char} {s p : Nat}
    (hne : pat ≠ []) (h : pyFind t pat s = some p) : p < t.length := by
  unfold pyFind at h
  have hp := List.find?_some h
  simp only [Bool.and_eq_true, decide_eq_true_iff] at hp
  have hpre : pat.isPrefixOf (t.drop p) := by
    simpa [isSubAt] using hp.2
  rw [List.isPrefixOf_iff_prefix] at hpre
  rcases pat with _ | ⟨c, pat⟩
  · exact absurd rfl hne
  · have : t.drop p ≠ [] := by
      intro hd
      rw [hd] at hpre
      exact absurd (List.prefix_nil.mp hpre) (by simp)
    have : 0 < (t.drop p).length := List.length_pos.mpr this
    simp only [List.length_drop] at this
    omega

/-- Structural worker of the scanning pass of `resolve_entities` (the
`while True` loop, resolve.py:81-128): accumulates the output text, the
resolved names and the unknown names.  The fuel argument bounds the
number of iterations; every iteration consumes at least one character
of `text`, so `text.length + 1` is always sufficient (the wrapper
`resolveEntPass` supplies it).  The near-match suggestions
(resolve.py:108-128) only print warnings and are omitted. -/
def resolveEntPassAux (entities : List (List Char × List Char))
    (ignored : List (List Char)) (fcap : Bool) (nalts : Nat)
    (althead : List Char) :
    Nat → List Char → List Char → List (List Char) → List (List Char) →
    List Char × List (List Char) × List (List Char)
  | 0, text, newText, resolved, unknown => (newText ++ text, resolved, unknown)
  | fuel + 1, text, newText, resolved, unknown =>
    match pyFind text ['&'] 0 with
    | none => (newText ++ text, resolved, unknown)
    | some p =>
      let newText := newText ++ pySlice text 0 (p + 1)
      let text' := text.drop (p + 1)
      match entityTailMatch text' 0 with
      | none =>
          resolveEntPassAux entities ignored fcap nalts althead
            fuel text' newText resolved unknown
      | some nm =>
          let entname := nm.1
          if entname ∈ ignored then
            resolveEntPassAux entities ignored fcap nalts althead
              fuel text' newText resolved unknown
          else
            let entname2 :=
              if fcap && !(entLookup entities entname).isSome then
                first_to_lower entname
              else entname
            match entLookup entities entname2 with
            | some entval =>
                let entval :=
                  if fcap && entname ≠ entname2 then
                    first_to_upper entval nalts althead
                  else entval
                resolveEntPassAux entities ignored fcap nalts althead
                  fuel (text'.drop nm.2) (newText.dropLast ++ entval)
                  (resolved ++ [entname2]) unknown
            | none =>
                resolveEntPassAux entities ignored fcap nalts althead
                  fuel text' newText resolved (unknown ++ [entname2])

/-- One scanning pass of `resolve_entities` (resolve.py:81-128). -/
def resolveEntPass (entities : List (List Char × List Char))
    (ignored : List (List Char)) (fcap : Bool) (nalts : Nat)
    (althead : List Char) (text : List Char) :
    List Char × List (List Char) × List (List Char) :=
  resolveEntPassAux entities ignored fcap nalts althead
    (text.length + 1) text [] [] []

/-- Function `resolve_entities(text, entities, …)` with fuel for the
re-running over the output (resolve.py:130-138): `none` models running
out of fuel before the fixed point. -/
def resolveEntitiesFuel (entities : List (List Char × List Char))
    (ignored : List (List Char)) (fcap : Bool) (nalts : Nat)
    (althead : List Char) :
    Nat → List Char → Option (List Char × List (List Char) × List (List Char))
  | 0, _ => none
  | fuel + 1, text =>
    let r := resolveEntPass entities ignored fcap nalts althead text
    if r.2.1 = [] then some r
    else
      match resolveEntitiesFuel entities ignored fcap nalts althead fuel r.1 with
      | none => none
      | some s => some (s.1, r.2.1 ++ s.2.1, r.2.2 ++ s.2.2)

/-- Structural worker for `refNames`; as above the fuel
`text.length + 1` is always sufficient. -/
def refNamesAux : Nat → List Char → List (List Char)
  | 0, _ => []
  | fuel + 1, text =>
    match pyFind text ['&'] 0 with
    | none => []
    | some p =>
      let rest := text.drop (p + 1)
      match entityTailMatch rest 0 with
      | some nm => nm.1 :: refNamesAux fuel (rest.drop nm.2)
      | none => refNamesAux fuel rest

/-- Entity names referenced in a text, by the same reference syntax the
resolver uses (a `&` followed by a match of `_entity_tail_rx`). -/
def refNames (text : List Char) : List (List Char) :=
  refNamesAux (text.length + 1) text

/-- Acyclicity of the value graph of an entity map: edges go from an
entity to the entities referenced in its value; a rank function
witnesses the absence of cycles. -/
def AcyclicEntities (entities : List (List Char × List Char)) : Prop :=
  ∃ rank : List Char → Nat, ∀ pr ∈ entities, ∀ m ∈ refNames pr.2,
    (entLookup entities m).isSome → rank m < rank pr.1

/-- Entity map for the C9 counterexample: the value of `a` holds no
entity reference (its `&b` lacks the closing `;`), the value of `b`
references only `a`, so the value graph has the single edge b → a and
is acyclic. -/
def c9Entities : List (List Char × List Char) :=
  [("a".toList, "&b".toList), ("b".toList, "&a;;".toList)]

/-- Entity map for the C9 witness: a single ampersand-free value. -/
def c9WitnessEntities : List (List Char × List Char) :=
  [("x".toList, "Y".toList)]

/-! ## Rule file parsing (src/misc/rules.py)

Embedding of `_findEndQuote`, `_parseRuleLine` and the directive
dispatch of `loadRulesFromFile` — the part that parses rule files and
keeps the identifier bookkeeping.  Not modelled: the filter directives
(`addFilterRegex`, `addFilterHook`, `removeFilter`, `clearFilters`) and
`include` — they build regex/hook closures and splice files and do not
interact with the identifier bookkeeping; encountering one is reported
as `unmodelledDirective`, and the inputs of the theorems below avoid
them.  The Python function catches raised errors and reports them via
`error()` which aborts the run; the `Except` error models the raised
exception. -/

/-- Python `str.strip()`. -/
def charTrim (l : List Char) : List Char :=
  pyRstrip (pyLstrip l)

/-- Dictionary lookup, modelling a Python dict as an association
    list. -/
def assocFind [DecidableEq α] (l : List (α × β)) (k : α) : Option β :=
  (l.find? (fun pr => pr.1 = k)).map (fun pr => pr.2)

/-- Dictionary assignment: replace the value of an existing key, or
append a new pair. -/
def assocSet [DecidableEq α] (l : List (α × β)) (k : α) (v : β) :
    List (α × β) :=
  if (l.find? (fun pr => pr.1 = k)).isSome then
    l.map (fun pr => if pr.1 = k then (k, v) else pr)
  else l ++ [(k, v)]

/-- Errors raised while loading a rule file.  `identError` models
`IdentError(ident, prevLine)` (rules.py:717); `indexError` and
`typeErrorAppend` model the Python `IndexError` on a missing field and
the `TypeError` of the two-argument `append` at rules.py:1619 (the
spec's open question 2); `keyError` the lookup of an undeclared
validity group. -/
inductive RuleErr where
  | unbalanced
  | missingKeyword
  | malformedTrigger
  | noPattern
  | invalidFieldName
  | nonTerminated
  | indexError
  | typeErrorAppend
  | unknownKeyword
  | unknownModifier
  | directiveOutside
  | unknownDirective
  | groupDirectiveInGroup
  | keyError
  | identError (ident : Option (List Char)) (prevLine : Nat)
  | unmodelledDirective
deriving DecidableEq

/-- Loop of `_findEndQuote` (rules.py:1649-1671).  Returns the position
of the closing quote together with the local `string` built along the
way (in which a backslash before the quote character is dropped and any
other backslash is kept); the Python function discards `string` and
returns only the position.  A line ending in a backslash makes the
Python code read past the end (`line[epos]` with `epos == llen`),
modelled as `indexError`; fuel `line.length + 1` is always sufficient
as the position advances every step. -/
def findEndQuoteAux (line : List Char) (quote : Char) :
    Nat → Nat → List Char → Except RuleErr (Nat × List Char)
  | 0, _, _ => .error .nonTerminated
  | k + 1, epos, string =>
    match line.get? epos with
    | none => .error .nonTerminated
    | some c =>
      if c = '\\' then
        match line.get? (epos + 1) with
        | none => .error .indexError
        | some c2 =>
          let string := if c2 ≠ quote then string ++ [c, c2] else string ++ [c2]
          findEndQuoteAux line quote k (epos + 2) string
      else if c = quote then .ok (epos, string)
      else findEndQuoteAux line quote k (epos + 1) (string ++ [c])

/-- Function `_findEndQuote(line, pos)` (rules.py:1631-1671); the
character at `pos` is the quote character. -/
def findEndQuote (line : List Char) (pos : Nat) :
    Except RuleErr (Nat × List Char) :=
  match line.get? pos with
  | none => .error .indexError
  | some quote => findEndQuoteAux line quote (line.length + 1) (pos + 1) []

/-- Backslash-continuation composition of `_parseRuleLine`
(rules.py:1509-1515): while the line ends in a backslash-newline, strip
both and append the next physical line. -/
def composeLineAux (lines : List (List Char)) :
    Nat → Nat → List Char → (List Char × Nat)
  | 0, lno, line => (line, lno)
  | k + 1, lno, line =>
    if ['\\', '\n'].isSuffixOf line then
      let line := line.dropLast.dropLast
      if lines.length ≤ lno then (line, lno)
      else composeLineAux lines k (lno + 1) (line ++ (lines.get? lno).getD [])
    else (line, lno)

/-- Balanced-bracket scan of the shorthand trigger pattern
(rules.py:1538-1547): starting with balance 1 at the opening bracket,
advance until the balance returns to 0; `none` when the line ends
first (the unbalanced error). -/
def scanBalanced (line : List Char) (bropn brcls : Char) :
    Nat → Nat → Nat → Option Nat
  | 0, _, _ => none
  | k + 1, p, balance =>
    let p := p + 1
    match line.get? p with
    | none => none
    | some c =>
      let balance :=
        if c = bropn then balance + 1
        else if c = brcls then balance - 1 else balance
      if balance = 0 then some p else scanBalanced line bropn brcls k p balance

/-- Field-name check `^!?[a-z][\w-]*$` (rules.py:1610), without the
optional leading `!`. -/
def validFieldNameCore : List Char → Bool
  | [] => false
  | c :: rest => c.isLower && rest.all (fun d => isWordChar d || d = '-')

/-- Field-name check `^!?[a-z][\w-]*$` (rules.py:1610). -/
def validFieldName : List Char → Bool
  | '!' :: rest => validFieldNameCore rest
  | n => validFieldNameCore n

/-- Tokenizing loop of `_parseRuleLine` (rules.py:1522-1628).  A field
is a pair of the name and the optional value (`None` when there is no
equal sign).  For the two trigger fields the name of the first is `*`
with the message-part keyword as value, and the name of the second is
the pattern with the match modifiers as value.  The position advances
every iteration, so fuel `line.length + 1` is always sufficient. -/
def parseRuleFields (line : List Char) :
    Nat → Nat → Bool → List (List Char × Option (List Char)) →
    Except RuleErr (List (List Char × Option (List Char)))
  | 0, _, _, fields => .ok fields
  | k + 1, p, inMods, fields =>
    let llen := line.length
    let p := scanWhile (fun c => c.isWhitespace) line p
    if llen ≤ p then .ok fields
    else if line.get? p = some '#' then .ok fields
    else if fields.length = 0 && (line.get? p = some '[' || line.get? p = some '{') then
      let bropn := (line.get? p).getD ' '
      let brcls := if bropn = '{' then '}' else ']'
      let fname := if bropn = '{' then "msgid".toList else "msgstr".toList
      match scanBalanced line bropn brcls (llen + 1) p 1 with
      | none => .error .unbalanced
      | some q =>
        parseRuleFields line k (q + 1) true
          (fields ++ [(['*'], some fname), (pySlice line (p + 1) q, some [])])
    else if fields.length = 0 && line.get? p = some '*' then
      let p := p + 1
      let p := scanWhile (fun c => c.isWhitespace) line p
      if llen ≤ p then .error .missingKeyword
      else
        let q := scanWhile (fun c => c.isAlphanum || c = '_') line p
        if llen ≤ q then .error .malformedTrigger
        else
          let fname := pySlice line p q
          let r := scanWhile (fun c => c.isWhitespace) line q
          if llen ≤ r then .error .noPattern
          else
            match findEndQuote line r with
            | .error e => .error e
            | .ok eq =>
              parseRuleFields line k (eq.1 + 1) true
                (fields ++ [(['*'], some fname), (pySlice line (r + 1) eq.1, some [])])
    else if inMods then
      let q := scanWhile (fun c => !c.isWhitespace) line p
      match fields.getLast? with
      | none => .error .indexError
      | some last =>
        parseRuleFields line k q inMods
          (fields.dropLast ++ [(last.1, some ((last.2.getD []) ++ pySlice line p q))])
    else
      let q := scanWhile (fun c => !c.isWhitespace && c ≠ '=') line p
      let fname := pySlice line p q
      if !validFieldName fname then .error .invalidFieldName
      else if llen ≤ q || ((line.get? q).getD ' ').isWhitespace then
        parseRuleFields line k q inMods (fields ++ [(fname, none)])
      else
        let q := q + 1
        if llen ≤ q || ((line.get? q).getD ' ').isWhitespace then
          .error .typeErrorAppend
        else
          match findEndQuote line q with
          | .error e => .error e
          | .ok eq =>
            parseRuleFields line k (eq.1 + 1) inMods
              (fields ++ [(fname, some (pySlice line (q + 1) eq.1))])

/-- Function `_parseRuleLine(lines, lno)` (rules.py:1495-1628): compose
backslash continuations, then tokenize into fields. -/
def parseRuleLine (lines : List (List Char)) (lno : Nat) :
    Except RuleErr (List (List Char × Option (List Char)) × Nat) :=
  let start := (lines.get? (lno - 1)).getD []
  let cl := composeLineAux lines (lines.length + 1) lno start
  match parseRuleFields cl.1 (cl.1.length + 1) 0 false [] with
  | .error e => .error e
  | .ok fields => .ok (fields, cl.2)

/-- Trigger message-part keywords (rules.py:1172-1180). -/
def triggerMsgparts : List (List Char) :=
  ["msgctxt".toList, "msgid".toList, "msgstr".toList,
   "msgid_singular".toList, "msgid_plural".toList,
   "msgstr_0".toList, "msgstr_1".toList, "msgstr_2".toList,
   "msgstr_3".toList, "msgstr_4".toList, "msgstr_5".toList,
   "msgstr_6".toList, "msgstr_7".toList, "msgstr_8".toList,
   "msgstr_9".toList]

/-- The rule data assembled by `loadRulesFromFile` (rules.py:653-659),
restricted to the parsed fields: the compiled trigger and the filter
functions are left out (regex compilation is external to the claims). -/
structure SRule where
  pattern : List Char
  msgpart : List Char
  hint : Option (List Char)
  valid : List (List (List Char × Option (List Char)))
  casesens : Bool
  ident : Option (List Char)
  disabled : Bool
  environ : Option (List Char)
deriving DecidableEq

/-- Mutable state of the `loadRulesFromFile` loop
(rules.py:588-609). -/
structure LoadState where
  rules : List SRule
  inRule : Bool
  inGroup : Bool
  valid : List (List (List Char × Option (List Char)))
  validGroup : List (List Char × List (List (List Char × Option (List Char))))
  validGroupName : List Char
  identLines : List (Option (List Char) × (Nat × Option (List Char)))
  globalEnviron : Option (List Char)
  pattern : List Char
  msgpart : List Char
  hint : Option (List Char)
  ident : Option (List Char)
  disabled : Bool
  casesens : Bool
  environ : Option (List Char)
deriving DecidableEq

/-- Initial loader state (rules.py:588-609). -/
def initLoadState : LoadState :=
  ⟨[], false, false, [], [], [], [], none, [], [], some [], none, false,
   true, none⟩

/-- Python `a or b` over optional strings (an empty string is falsy). -/
def pyOr (a b : Option (List Char)) : Option (List Char) :=
  match a with
  | some v => if v = [] then b else some v
  | none => b

/-- End-of-rule handling (rules.py:632-673): on an empty field list or
a new trigger, an open rule is emitted with the effective environment
`environ or globalEnviron`, an open validity group is stored, and the
per-rule state is reset. -/
def endOfRule (st : LoadState) : LoadState :=
  if st.inRule then
    { st with
      inRule := false
      rules := st.rules ++ [⟨st.pattern, st.msgpart, st.hint, st.valid,
        st.casesens, st.ident, st.disabled,
        pyOr st.environ st.globalEnviron⟩]
      pattern := []
      msgpart := []
      hint := some []
      ident := none
      disabled := false
      casesens := true
      environ := none
      valid := [] }
  else if st.inGroup then
    { st with
      inGroup := false
      validGroup := assocSet st.validGroup st.validGroupName st.valid
      validGroupName := []
      valid := [] }
  else { st with valid := [] }

/-- Directive dispatch of `loadRulesFromFile` (rules.py:679-817) for a
non-empty field list.  `lno` is the line number after continuation
composition, as recorded for identifiers (rules.py:718). -/
def dispatchDirective (st : LoadState)
    (fields : List (List Char × Option (List Char))) (lno : Nat) :
    Except RuleErr LoadState :=
  match fields.head? with
  | none => .ok st
  | some f0 =>
    if f0.1 = ['*'] then
      let msgpart := f0.2.getD []
      if !(triggerMsgparts.contains msgpart) then .error .unknownKeyword
      else
        match fields.get? 1 with
        | none => .error .indexError
        | some f1 =>
          let mods := f1.2.getD []
          if !(mods.all (fun m => m = 'i')) then .error .unknownModifier
          else .ok { st with
            inRule := true
            msgpart := msgpart
            pattern := f1.1
            casesens := !(mods.contains 'i') }
    else if f0.1 = "valid".toList then
      if !st.inRule && !st.inGroup then .error .directiveOutside
      else .ok { st with valid := st.valid ++ [fields.drop 1] }
    else if f0.1 = "hint".toList then
      if !st.inRule then .error .directiveOutside
      else .ok { st with hint := f0.2 }
    else if f0.1 = "id".toList then
      if !st.inRule then .error .directiveOutside
      else
        match assocFind st.identLines f0.2 with
        | some prev =>
          if prev.2 = st.globalEnviron then .error (.identError f0.2 prev.1)
          else .ok { st with
            ident := f0.2
            identLines := assocSet st.identLines f0.2 (lno, st.globalEnviron) }
        | none => .ok { st with
            ident := f0.2
            identLines := assocSet st.identLines f0.2 (lno, st.globalEnviron) }
    else if f0.1 = "disabled".toList then
      if !st.inRule then .error .directiveOutside
      else .ok { st with disabled := true }
    else if f0.1 = "validGroup".toList then
      if st.inGroup then .error .groupDirectiveInGroup
      else
        match fields.get? 1 with
        | none => .error .indexError
        | some f1 =>
          if st.inRule then
            match assocFind st.validGroup f1.1 with
            | none => .error .keyError
            | some entries =>
              .ok { st with
                validGroupName := f1.1
                valid := st.valid ++ entries }
          else
            .ok { st with inGroup := true, validGroupName := f1.1 }
    else if f0.1 = "environment".toList then
      if st.inGroup then .error .groupDirectiveInGroup
      else
        match fields.get? 1 with
        | none => .error .indexError
        | some f1 =>
          if st.inRule then .ok { st with environ := some f1.1 }
          else .ok { st with globalEnviron := some f1.1 }
    else if "addFilter".toList.isPrefixOf f0.1
        || f0.1 = "removeFilter".toList || f0.1 = "clearFilters".toList
        || f0.1 = "include".toList then
      .error .unmodelledDirective
    else .error .unknownDirective

/-- Main loop of `loadRulesFromFile` (rules.py:615-817), without the
include file stack (see the section comment).  `lno` advances by at
least one line per iteration, so fuel `lines.length + 1` is always
sufficient. -/
def loadRulesLoop (lines : List (List Char)) :
    Nat → Nat → LoadState → Except RuleErr (List SRule)
  | 0, _, st => .ok st.rules
  | fuel + 1, lno, st =>
    if lines.length ≤ lno then .ok st.rules
    else
      let lno := lno + 1
      match parseRuleLine lines lno with
      | .error e => .error e
      | .ok fl =>
        let lno := fl.2
        let curLine := (lines.get? (lno - 1)).getD []
        if ['#'].isPrefixOf (charTrim curLine) then
          loadRulesLoop lines fuel lno st
        else
          let fields := fl.1
          let st :=
            if fields.isEmpty || (fields.head?.map (fun f => f.1) = some ['*'])
            then endOfRule st else st
          if fields.isEmpty then loadRulesLoop lines fuel lno st
          else
            match dispatchDirective st fields lno with
            | .error e => .error e
            | .ok st' => loadRulesLoop lines fuel lno st'

/-- Function `loadRulesFromFile` on the list of physical lines of one
file (rules.py:576-828): a sentry newline is appended
(rules.py:613) and the loop is run from the initial state. -/
def loadRules (lines : List (List Char)) : Except RuleErr (List SRule) :=
  let lines := lines ++ [['\n']]
  loadRulesLoop lines (lines.length + 1) 0 initLoadState

/-- Rule line with an escaped quote in a field value, for C5. -/
def ruleEscLine : List Char := "id=\"a\\\"b\"\n".toList

/-- Rule file for the C7 counterexample: two rules with the same id
and different rule-specific environments (hence different effective
environments), under the same (absent) file-wide default
environment. -/
def c7FileA : List (List Char) :=
  ["*msgid/foo/\n".toList,
   "environment env1\n".toList,
   "id=\"x\"\n".toList,
   "\n".toList,
   "*msgid/bar/\n".toList,
   "environment env2\n".toList,
   "id=\"x\"\n".toList]

/-- The C7 counterexample file without the id lines, to exhibit the
effective environments of its two rules. -/
def c7FileNoIds : List (List Char) :=
  ["*msgid/foo/\n".toList,
   "environment env1\n".toList,
   "\n".toList,
   "*msgid/bar/\n".toList,
   "environment env2\n".toList]

/-- Rule file with two same-id rules under different file-wide default
environments, for the C7 amended claim. -/
def c7FileB : List (List Char) :=
  ["environment g1\n".toList,
   "*msgid/foo/\n".toList,
   "id=\"x\"\n".toList,
   "\n".toList,
   "environment g2\n".toList,
   "*msgid/bar/\n".toList,
   "id=\"x\"\n".toList]

/-- Loader state inside a rule, for the C7 witness. -/
def c7StateW : LoadState :=
  { initLoadState with inRule := true }

/-- Loader state inside a rule with a previously recorded identifier,
for the C7 witness. -/
def c7StateW2 : LoadState :=
  { initLoadState with
    inRule := true
    identLines := [(some "x".toList, (2, some "g".toList))]
    globalEnviron := some "g".toList }

/-! ## PO catalog parser (src/pology/catalog.py:41-417)

The parser is modelled at line level: the byte-level concerns of
`_read_lines_and_encoding` (line-terminator choice, charset discovery,
decoding — catalog.py:82-125) are the "encoding normalization" the
claims allow for, so the model starts from the list of decoded lines,
each carrying its trailing newline.  Header-only mode (and thus the
`tail` capture, catalog.py:173-181) is not modelled: the claims
concern normally loaded catalogs, whose `tail` is `None`. -/

/-- Python `str.lstrip()` for line content. -/
def charLstrip (l : List Char) : List Char :=
  l.dropWhile Char.isWhitespace

/-- C-unescape of quoted PO strings.  Modelled from the spec:
`unescape_c` lives in `pology.escape`, which is not among the sources;
spec §8 (round-trip laws) fixes its behaviour on the C escapes
`\n`, `\t`, `\r`, `\"`, `\\`; other backslash pairs are kept as
they are. -/
def unescape_c : List Char → List Char
  | [] => []
  | '\\' :: c :: rest =>
    (if c = 'n' then ['\n']
     else if c = 't' then ['\t']
     else if c = 'r' then ['\r']
     else if c = '"' then ['"']
     else if c = '\\' then ['\\']
     else ['\\', c]) ++ unescape_c rest
  | c :: rest => c :: unescape_c rest

/-- Function `_parse_quoted(s)` (catalog.py:41-45): the substring
between the first and the last double quote, C-unescaped.  Callers
guarantee at least one quote in `s`. -/
def parseQuoted (s : List Char) : List Char :=
  let f := (pyFind s ['"'] 0).getD 0
  let l := s.length - 1 - ((pyFind s.reverse ['"'] 0).getD 0)
  unescape_c (pySlice s (f + 1) l)

/-- Raw per-entry parse record `_MessageDict` (catalog.py:48-79): field
accumulators (lists of string fragments) plus the line caches. -/
structure PEntry where
  manualComment : List (List Char)
  autoComment : List (List Char)
  source : List (List Char × Int)
  flag : List (List Char)
  obsolete : Bool
  msgctxtPrev : List (List Char)
  msgidPrev : List (List Char)
  msgidPluralPrev : List (List Char)
  msgctxt : List (List Char)
  msgid : List (List Char)
  msgidPlural : List (List Char)
  msgstr : List (List (List Char))
  refline : Int
  refentry : Int
  linesAll : List (List Char)
  linesManualComment : List (List Char)
  linesAutoComment : List (List Char)
  linesSource : List (List Char)
  linesFlag : List (List Char)
  linesMsgctxtPrev : List (List Char)
  linesMsgidPrev : List (List Char)
  linesMsgidPluralPrev : List (List Char)
  linesMsgctxt : List (List Char)
  linesMsgid : List (List Char)
  linesMsgidPlural : List (List Char)
  linesMsgstr : List (List Char)
deriving DecidableEq

/-- Fresh `_MessageDict` (catalog.py:50-79). -/
def emptyPEntry : PEntry :=
  ⟨[], [], [], [], false, [], [], [], [], [], [], [], -1, -1,
   [], [], [], [], [], [], [], [], [], [], [], []⟩

/-- Field context of the parser state machine (catalog.py:147-149). -/
inductive FieldCtx where
  | fnone | fmsgctxt | fmsgid | fmsgidPlural | fmsgstr
deriving DecidableEq

/-- Age context for one line; `life` and `age` are reset at the start
of every line (catalog.py:192-193), so only the value reached at the
end of the line matters for the cache classification. -/
inductive Age where
  | current | previous
deriving DecidableEq

/-- Errors of the PO parser (subset of `CatalogSyntaxError` and the
internal `PologyError` cases; decode errors are prior to this model). -/
inductive CatErr where
  | malformedOrdinal
  | unknownField
  | expectedContinuation
  | internalProblem (id : Nat)
  | noHeader
  | emptyMessage
deriving DecidableEq

/-- Parser state threaded through the line loop: current entry, emitted
entries, persistent field context, current `msgstr` ordinal and running
entry counter `eno`. -/
structure PState where
  cur : PEntry
  done : List PEntry
  fieldCtx : FieldCtx
  msgstrIdx : Nat
  eno : Nat
deriving DecidableEq

/-- Initial parser state (catalog.py:151-162). -/
def initPState : PState :=
  ⟨emptyPEntry, [], .fnone, 0, 0⟩

/-- Function `try_finish` (catalog.py:168-181, without header-only
mode): when the context leaves `msgstr`, the current entry is emitted
and a fresh one started. -/
def tryFinish (st : PState) : PState :=
  if st.fieldCtx = .fmsgstr then
    { st with
      done := st.done ++ [st.cur]
      cur := emptyPEntry
      fieldCtx := .fnone }
  else st

/-- Positive-integer parse of a source-reference line number
(catalog.py:220-222: `int(...)` plus `assert line > 0`; any failure
falls back to the whole token with line `-1`). -/
def pyParsePosInt (s : List Char) : Option Int :=
  if s ≠ [] && s.all Char.isDigit then
    let v : Nat := s.foldl (fun a c => a * 10 + (c.toNat - '0'.toNat)) 0
    if 0 < v then some (v : Int) else none
  else none

/-- Parse of one `#:` source-reference token (catalog.py:214-228):
split at the first colon; a positive integer after it gives a
(path, line) pair, anything else the whole token with line `-1`. -/
def parseSrcref (srcref : List Char) : List Char × Int :=
  match pyFind srcref [':'] 0 with
  | none => (srcref, -1)
  | some q =>
    match pyParsePosInt (srcref.drop (q + 1)) with
    | some v => (pySlice srcref 0 q, v)
    | none => (srcref, -1)

/-- Handling of a `#:` line (catalog.py:211-228). -/
def addSrcrefs (e : PEntry) (content : List Char) : PEntry :=
  { e with source := e.source ++
      ((content.splitOn ' ').map charTrim |>.filter (fun s => s ≠ [])
        |>.map parseSrcref) }

/-- Handling of a `#,` line (catalog.py:230-236). -/
def addFlags (e : PEntry) (content : List Char) : PEntry :=
  { e with flag := e.flag ++
      ((content.splitOn ',').map charTrim |>.filter (fun s => s ≠ [])) }

/-- Count of leading decimal digits, for the `msgstr[N]` ordinal
(catalog.py:290-292). -/
def leadingDigits (l : List Char) : Nat :=
  (l.takeWhile Char.isDigit).length

/-- Natural value of a digit string (Python `int`). -/
def digitsVal (s : List Char) : Nat :=
  s.foldl (fun a c => a * 10 + (c.toNat - '0'.toNat)) 0

/-- Starting-fields block of the keyword processing
(catalog.py:255-317): keyword recognition, context switches, obsolete
marking, reference recording and the `msgstr` ordinal.  Returns the new
state and the rest of the line. -/
def keywordStart (st : PState) (line : List Char) (obsol : Bool)
    (age : Age) (lno : Nat) : Except CatErr (PState × List Char) :=
  if line = [] then .ok (st, line)
    else if "msgctxt".toList.isPrefixOf line then
      let st := tryFinish st
      .ok ({ st with fieldCtx := .fmsgctxt }, charLstrip (line.drop 7))
    else if "msgid_plural".toList.isPrefixOf line then
      .ok ({ st with fieldCtx := .fmsgidPlural }, charLstrip (line.drop 12))
    else if "msgid".toList.isPrefixOf line then
      let st := tryFinish st
      let st := if obsol then { st with cur := { st.cur with obsolete := true } }
                else st
      let st := { st with fieldCtx := .fmsgid }
      let st :=
        if age = .current then
          { st with
            cur := { st.cur with refline := (lno : Int),
                                 refentry := (st.eno : Int) }
            eno := st.eno + 1 }
        else st
      .ok (st, charLstrip (line.drop 5))
    else if "msgstr".toList.isPrefixOf line then
      let st := { st with fieldCtx := .fmsgstr }
      let line := charLstrip (line.drop 6)
      if "[".toList.isPrefixOf line then
        let line := charLstrip (line.drop 1)
        let p := leadingDigits line
        if p = 0 then .error .malformedOrdinal
        else
          let idx := digitsVal (line.take p)
          let line := charLstrip (line.drop p)
          if "]".toList.isPrefixOf line then
            let st := { st with msgstrIdx := idx }
            let ms := st.cur.msgstr
              ++ List.replicate (idx + 1 - st.cur.msgstr.length) []
            let st := { st with cur := { st.cur with msgstr := ms } }
            .ok (st, charLstrip (line.drop 1))
          else .error .malformedOrdinal
      else
        let st := { st with msgstrIdx := 0 }
        let ms := st.cur.msgstr ++ List.replicate (1 - st.cur.msgstr.length) []
        let st := { st with cur := { st.cur with msgstr := ms } }
        .ok (st, line)
  else if !("\"".toList.isPrefixOf line) then .error .unknownField
  else .ok (st, line)

/-- Continuation block of the keyword processing (catalog.py:319-342):
append a quoted fragment to the slot of the current (age, field)
context. -/
def contAppend (st : PState) (line : List Char) (age : Age) :
    Except CatErr PState :=
  if line = [] then .ok st
    else if "\"".toList.isPrefixOf line then
      let s := parseQuoted line
      match age, st.fieldCtx with
      | .previous, .fmsgctxt =>
          .ok { st with cur := { st.cur with msgctxtPrev :=
            st.cur.msgctxtPrev ++ [s] } }
      | .previous, .fmsgid =>
          .ok { st with cur := { st.cur with msgidPrev :=
            st.cur.msgidPrev ++ [s] } }
      | .previous, .fmsgidPlural =>
          .ok { st with cur := { st.cur with msgidPluralPrev :=
            st.cur.msgidPluralPrev ++ [s] } }
      | .previous, _ => .ok st
      | .current, .fmsgctxt =>
          .ok { st with cur := { st.cur with msgctxt :=
            st.cur.msgctxt ++ [s] } }
      | .current, .fmsgid =>
          .ok { st with cur := { st.cur with msgid :=
            st.cur.msgid ++ [s] } }
      | .current, .fmsgidPlural =>
          .ok { st with cur := { st.cur with msgidPlural :=
            st.cur.msgidPlural ++ [s] } }
      | .current, .fmsgstr =>
          let ms := st.cur.msgstr.set st.msgstrIdx
            ((st.cur.msgstr.getD st.msgstrIdx []) ++ [s])
          .ok { st with cur := { st.cur with msgstr := ms } }
      | .current, .fnone => .ok st
  else .error .expectedContinuation

/-- Keyword-and-continuation processing of one stripped line after the
comment prefixes (catalog.py:255-342).  `line` is the stripped line
with any `#~`/`#|`/`#~|` prefix removed, `obsol` tells whether the life
context is obsolete, `age` the age context. -/
def keywordCont (st : PState) (line : List Char) (obsol : Bool)
    (age : Age) (lno : Nat) : Except CatErr PState :=
  match keywordStart st line obsol age lno with
  | .error e => .error e
  | .ok stl => contAppend stl.1 stl.2 age

/-- Field processing of one non-blank line (catalog.py:191-342):
reset life/age, strip comment prefixes, dispatch.  Returns the state
and the age context reached (for the cache classification). -/
def processLine (st : PState) (lineRaw : List Char) (lno : Nat) :
    Except CatErr (PState × Age) :=
  let line := charTrim lineRaw
  if "#".toList.isPrefixOf line then
    if "#~|".toList.isPrefixOf line then
      (keywordCont st (charLstrip (line.drop 3)) false .previous lno).map
        (fun st => (st, .previous))
    else if "#~".toList.isPrefixOf line then
      (keywordCont st (charLstrip (line.drop 2)) true .current lno).map
        (fun st => (st, .current))
    else if "#|".toList.isPrefixOf line then
      (keywordCont st (charLstrip (line.drop 2)) false .previous lno).map
        (fun st => (st, .previous))
    else if "#:".toList.isPrefixOf line then
      let st := tryFinish st
      .ok ({ st with cur := (addSrcrefs st.cur (line.drop 2)) }, .current)
    else if "#,".toList.isPrefixOf line then
      let st := tryFinish st
      .ok ({ st with cur := (addFlags st.cur (line.drop 2)) }, .current)
    else if "#.".toList.isPrefixOf line then
      let st := tryFinish st
      .ok ({ st with cur := { st.cur with autoComment :=
        st.cur.autoComment ++ [charLstrip (line.drop 2)] } }, .current)
    else
      let st := tryFinish st
      .ok ({ st with cur := { st.cur with manualComment :=
        st.cur.manualComment ++ [charLstrip (line.drop 2)] } }, .current)
  else
    (keywordCont st line false .current lno).map (fun st => (st, .current))

/-- Line-cache update (catalog.py:344-386): the raw line goes to
`linesAll` and to one typed bucket, classified by the raw prefix and
the (age, field) context; an impossible classification is the internal
error 11/12 of the source. -/
def cacheUpdate (st : PState) (lineRaw : List Char) (age : Age) :
    Except CatErr PState :=
  let cur := { st.cur with linesAll := st.cur.linesAll ++ [lineRaw] }
  if "#:".toList.isPrefixOf lineRaw then
    .ok { st with cur := { cur with linesSource :=
      cur.linesSource ++ [lineRaw] } }
  else if "#,".toList.isPrefixOf lineRaw then
    .ok { st with cur := { cur with linesFlag := cur.linesFlag ++ [lineRaw] } }
  else if "#.".toList.isPrefixOf lineRaw then
    .ok { st with cur := { cur with linesAutoComment :=
      cur.linesAutoComment ++ [lineRaw] } }
  else if "#".toList.isPrefixOf lineRaw
      && pySlice lineRaw 1 2 ≠ ['~'] && pySlice lineRaw 1 2 ≠ ['|'] then
    .ok { st with cur := { cur with linesManualComment :=
      cur.linesManualComment ++ [lineRaw] } }
  else
    match age, st.fieldCtx with
    | .previous, .fmsgctxt =>
        .ok { st with cur := { cur with linesMsgctxtPrev :=
          cur.linesMsgctxtPrev ++ [lineRaw] } }
    | .previous, .fmsgid =>
        .ok { st with cur := { cur with linesMsgidPrev :=
          cur.linesMsgidPrev ++ [lineRaw] } }
    | .previous, .fmsgidPlural =>
        .ok { st with cur := { cur with linesMsgidPluralPrev :=
          cur.linesMsgidPluralPrev ++ [lineRaw] } }
    | .previous, _ => .error (.internalProblem 11)
    | .current, .fmsgctxt =>
        .ok { st with cur := { cur with linesMsgctxt :=
          cur.linesMsgctxt ++ [lineRaw] } }
    | .current, .fmsgid =>
        .ok { st with cur := { cur with linesMsgid :=
          cur.linesMsgid ++ [lineRaw] } }
    | .current, .fmsgidPlural =>
        .ok { st with cur := { cur with linesMsgidPlural :=
          cur.linesMsgidPlural ++ [lineRaw] } }
    | .current, .fmsgstr =>
        .ok { st with cur := { cur with linesMsgstr :=
          cur.linesMsgstr ++ [lineRaw] } }
    | .current, .fnone => .error (.internalProblem 12)

/-- Processing of one raw line (one iteration of the parser loop,
catalog.py:183-386): blank lines are skipped before any cache update;
otherwise fields are processed, then the caches updated. -/
def stepLine (st : PState) (lineRaw : List Char) (lno : Nat) :
    Except CatErr PState :=
  if charTrim lineRaw = [] then .ok st
  else
    match processLine st lineRaw lno with
    | .error e => .error e
    | .ok sa => cacheUpdate sa.1 lineRaw sa.2

/-- The parser loop over the lines, with 1-based line numbers. -/
def parseLinesGo : PState → Nat → List (List Char) → Except CatErr PState
  | st, _, [] => .ok st
  | st, lno, l :: rest =>
    match stepLine st l lno with
    | .error e => .error e
    | .ok st' => parseLinesGo st' (lno + 1) rest

/-- Full parse `_parse_po_file` on decoded lines (catalog.py:183-417):
run the loop, finish the last entry, reject a missing header and
non-header entries with an empty key (joined `msgid` the empty string
and `msgctxt` absent).  Returns the emitted entries together with the
lines of a trailing unemitted fragment (comment or keyword lines after
the last `msgstr`, which the source silently drops). -/
def parseCatalogFull (lines : List (List Char)) :
    Except CatErr (List PEntry × List (List Char)) :=
  match parseLinesGo initPState 1 lines with
  | .error e => .error e
  | .ok st =>
    let st := tryFinish st
    if st.done.isEmpty then .error .noHeader
    else if (st.done.drop 1).any
        (fun e => e.msgid ≠ [] && e.msgid.flatten = [] && e.msgctxt.isEmpty) then
      .error .emptyMessage
    else .ok (st.done, st.cur.linesAll)

/-- The parsed entries of a catalog (the header is the first entry of
a proper PO file). -/
def parseCatalog (lines : List (List Char)) : Except CatErr (List PEntry) :=
  (parseCatalogFull lines).map (fun r => r.1)

/-! ## PO serialization of `Catalog.sync` (src/pology/catalog.py:1121-1339)

An entry as `sync` sees it: its cached line image, the obsolete flag,
and the monitoring state.  On load every entry gets `_committed = True`
and `_remove_on_sync = False` (catalog.py:598-601), and its
modification counter is zero (spec §3: the monitored containers count
value-changing assignments; `pology.misc.monitored` is not among the
sources).  The `Header` wrapper of the first entry is not among the
sources either; modelled from the spec: the header keeps the first
entry's line cache and is committed on load (catalog.py:568-569), and
`sync` reinserts it at position 0 (catalog.py:1188), so a catalog is
modelled as the full entry sequence with the header first.
`_renew_lines` (the re-rendering of dirty entries) depends on
`pology.misc.wrap` and `pology.escape`, which are not among the
sources; it is abstracted as the `render` parameter — the claims only
exercise the clean path, which never invokes it.  `fitplural` is not
modelled (it resizes only all-empty plural `msgstr` lists and is not
exercised by the claims). -/

/-- Serialization view of one entry. -/
structure SEntry where
  linesAll : List (List Char)
  obsolete : Bool
  modcount : Nat
  committed : Bool
  removeOnSync : Bool
deriving DecidableEq

/-- Entry state right after a load (catalog.py:598-601). -/
def loadEntry (e : PEntry) : SEntry :=
  ⟨e.linesAll, e.obsolete, 0, true, false⟩

/-- Method `to_lines` (message.py:520-550): re-render if forced, if
modified, or if no lines are cached; otherwise reuse the cache
byte-for-byte. -/
def toLines (render : SEntry → List (List Char)) (force : Bool)
    (e : SEntry) : List (List Char) :=
  if force || e.modcount ≠ 0 || e.linesAll.isEmpty then render e
  else e.linesAll

/-- Starting position for reinserting obsolete messages: the frontier
`obstop` before the trailing run of obsolete messages
(catalog.py:1193-1195). -/
def obstopOf (msgs : List SEntry) : Nat :=
  msgs.length - (msgs.reverse.takeWhile (fun m => m.obsolete)).length

/-- Guarantee of one empty line after an emitted entry
(catalog.py:1225-1227): append an empty line unless the last line
already is one. -/
def addBlank (flines : List (List Char)) : List (List Char) :=
  if flines.getLast? ≠ some ['\n'] then flines ++ [['\n']] else flines

/-- Serialization loop of `sync` (catalog.py:1206-1228): skip entries
scheduled for removal, hoist out-of-place obsolete entries to just
before the frontier, and emit the lines of the rest, each entry
followed by one empty line (`addBlank`).  `nmsgs` is the length
captured before the loop (the reorderings preserve it).  Each iteration
decreases `(nmsgs - i) + obstop`, so fuel `nmsgs + obstop + 1` is
always sufficient. -/
def syncLoop (render : SEntry → List (List Char)) (force noobsend : Bool)
    (nmsgs : Nat) :
    Nat → List SEntry → Nat → Nat → Nat → List (List Char) →
    (List (List Char) × List SEntry)
  | 0, msgs, _, _, _, flines => (flines, msgs)
  | fuel + 1, msgs, i, obstop, obsins, flines =>
    if nmsgs ≤ i then (flines, msgs)
    else
      match msgs.get? i with
      | none => (flines, msgs)
      | some msg =>
        if msg.removeOnSync then
          syncLoop render force noobsend nmsgs fuel msgs (i + 1) obstop
            obsins flines
        else if !noobsend && msg.obsolete && i < obstop then
          syncLoop render force noobsend nmsgs fuel
            (List.insertIdx (obsins - 1) msg (msgs.eraseIdx i)) i
            (obstop - 1) obsins flines
        else
          syncLoop render force noobsend nmsgs fuel msgs (i + 1) obstop
            obsins
            (addBlank (flines ++ toLines render (force || !msg.committed) msg))

/-- Removal of trailing empty lines (catalog.py:1229-1232, the
`tail = None` case of a normally loaded catalog). -/
def dropTrailingBlank (flines : List (List Char)) : List (List Char) :=
  (flines.reverse.dropWhile (fun l => l = ['\n'])).reverse

/-- The lines `sync` writes out for the catalog entry sequence
(header first), when it proceeds to serialize
(catalog.py:1187-1239). -/
def syncOutput (render : SEntry → List (List Char)) (force noobsend : Bool)
    (msgs : List SEntry) : List (List Char) :=
  let nmsgs := msgs.length
  let obstop := obstopOf msgs
  dropTrailingBlank
    (syncLoop render force noobsend nmsgs (nmsgs + obstop + 1)
      msgs 0 obstop obstop []).1

/-- Method `sync_map` (catalog.py:1302-1339, the entry-sequence part):
drop entries scheduled for removal and move obsolete entries to the
end, stably. -/
def sync_map (msgs : List SEntry) : List SEntry :=
  let keep := msgs.filter (fun m => !m.removeOnSync)
  keep.filter (fun m => !m.obsolete) ++ keep.filter (fun m => m.obsolete)

/-- In-memory message order after a full `sync`: the loop reorders the
sequence (header inserted first), the header is popped again
(catalog.py:1242) and `sync_map` runs (catalog.py:1245). -/
def syncResultMsgs (render : SEntry → List (List Char))
    (force noobsend : Bool) (msgs : List SEntry) : List SEntry :=
  let nmsgs := msgs.length
  let obstop := obstopOf msgs
  sync_map ((syncLoop render force noobsend nmsgs (nmsgs + obstop + 1)
      msgs 0 obstop obstop []).2.drop 1)

/-- Catalog state for `sync`: entry sequence (header first), the
monitored flag and the catalog-level modification counter. -/
structure SCatalog where
  msgs : List SEntry
  monitored : Bool
  modcount : Nat

/-- Method `Catalog.sync` (catalog.py:1121-1299, writing to lines):
a non-monitored catalog forces re-rendering; an unmodified, unforced
catalog returns without writing at all (catalog.py:1176-1182),
modelled as `none`. -/
def SCatalog.sync (c : SCatalog) (force noobsend : Bool)
    (render : SEntry → List (List Char)) : Option (List (List Char)) :=
  let force := force || !c.monitored
  if !force && c.modcount = 0 then none
  else some (syncOutput render force noobsend c.msgs)

/-- One message's contribution to the sync output: nothing when
scheduled for removal, else its lines and the separating empty line
(the line-level effect of catalog.py:1222-1227 when the emitted lines
are non-empty). -/
def emitOne (render : SEntry → List (List Char)) (force : Bool)
    (m : SEntry) : List (List Char) :=
  if m.removeOnSync then []
  else addBlank (toLines render (force || !m.committed) m)

/-- Whether an entry would be hoisted by the reorder loop. -/
def movedB (noobsend : Bool) (m : SEntry) : Bool :=
  !m.removeOnSync && (!noobsend && m.obsolete)

/-- The reordering `sync` applies to the entry sequence: obsolete
entries before the frontier are hoisted to just before it, keeping
their relative order. -/
def hoistObsolete (noobsend : Bool) (msgs : List SEntry) : List SEntry :=
  let obstop := obstopOf msgs
  (msgs.take obstop).filter (fun m => !movedB noobsend m)
    ++ (msgs.take obstop).filter (movedB noobsend)
    ++ msgs.drop obstop

/-- Reassembly of cached entry lines with single blank separators (the
canonical serialized form of a catalog). -/
def assembleEntries (msgs : List SEntry) : List (List Char) :=
  dropTrailingBlank ((msgs.map (fun m => m.linesAll ++ [['\n']])).flatten)

/-- The catalog lines of the C1 counterexample: a leading blank line
before the header entry. -/
def c1Input : List (List Char) :=
  [['\n'], "msgid \"\"\n".toList, "msgstr \"\"\n".toList]

/-- The single entry parsed from `c1Input`. -/
def c1Entry : PEntry :=
  ((parseCatalog c1Input).toOption.getD []).headD emptyPEntry

/-- Concrete loaded entries for C3: a header and three messages, the
second message obsolete. -/
def sHeader : SEntry :=
  ⟨["msgid \"\"\n".toList, "msgstr \"h\"\n".toList], false, 0, true, false⟩

/-- C3 live message 1. -/
def sM1 : SEntry :=
  ⟨["msgid \"m1\"\n".toList, "msgstr \"t1\"\n".toList], false, 0, true, false⟩

/-- C3 obsolete message 2. -/
def sM2 : SEntry :=
  ⟨["#~ msgid \"m2\"\n".toList, "#~ msgstr \"t2\"\n".toList],
   true, 0, true, false⟩

/-- C3 live message 3. -/
def sM3 : SEntry :=
  ⟨["msgid \"m3\"\n".toList, "msgstr \"t3\"\n".toList], false, 0, true, false⟩

/-- All raw lines cached so far by the parser: those of the emitted
entries followed by those of the entry under construction. -/
def pstateCache (st : PState) : List (List Char) :=
  (st.done.map PEntry.linesAll).flatten ++ st.cur.linesAll

/-- Invariant of the parser state between lines: every cached line is
non-blank (blank lines are skipped at catalog.py:186-189 before the
caching at catalog.py:344-349), emitted entries have at least one
cached line, and an entry in `msgstr` context (the only context from
which `try_finish` emits) has at least one cached line. -/
def PInv (st : PState) : Prop :=
  (∀ e ∈ st.done, e.linesAll ≠ [] ∧ ∀ l ∈ e.linesAll, charTrim l ≠ [])
  ∧ (∀ l ∈ st.cur.linesAll, charTrim l ≠ [])
  ∧ (st.fieldCtx = .fmsgstr → st.cur.linesAll ≠ [])

end Pology

namespace Pology

/-! ## Theorems -/

/-- C2: for every message `M`, `M.fuzzy` is true exactly when the string
"fuzzy" is a member of `M.flag`; assigning `M.fuzzy = true` adds the
"fuzzy" flag, and assigning `M.fuzzy = false` removes the "fuzzy" flag
(if present) and sets all three previous-fields to `None`. -/
theorem fuzzy_flag_spec (m : Msg) (s : String) :
    (m.fuzzy = true ↔ "fuzzy" ∈ m.flag)
    ∧ (s ∈ (m.setFuzzy true).flag ↔ (s ∈ m.flag ∨ s = "fuzzy"))
    ∧ ((m.setFuzzy true).fuzzy = true)
    ∧ (s ∈ (m.setFuzzy false).flag ↔ (s ∈ m.flag ∧ s ≠ "fuzzy"))
    ∧ ((m.setFuzzy false).msgctxt_previous = none
       ∧ (m.setFuzzy false).msgid_previous = none
       ∧ (m.setFuzzy false).msgid_plural_previous = none) := by
  refine ⟨?_, ?_, ?_, ?_, ?_, ?_, ?_⟩
  · simp [Msg.fuzzy]
  · by_cases h : "fuzzy" ∈ m.flag
    · simp only [Msg.setFuzzy, monsetAdd, if_pos h, if_pos rfl]
      constructor
      · exact fun hs => Or.inl hs
      · rintro (hs | rfl)
        · exact hs
        · exact h
    · simp [Msg.setFuzzy, monsetAdd, h]
  · by_cases h : "fuzzy" ∈ m.flag <;>
      simp [Msg.fuzzy, Msg.setFuzzy, monsetAdd, h]
  · simp [Msg.setFuzzy, monsetRemove, List.mem_filter]
  · simp [Msg.setFuzzy]
  · simp [Msg.setFuzzy]
  · simp [Msg.setFuzzy]

/-- C8: for every message `M`, `M.translated` is true iff `M` is not
fuzzy and at least one `msgstr` element is non-empty, `M.untranslated`
is true iff `M` is not fuzzy and every `msgstr` element is empty;
consequently the two are never both true, and both are false exactly
when `M.fuzzy` is true. -/
theorem translated_untranslated_spec (m : Msg) :
    (m.translated = true ↔ (m.fuzzy = false ∧ ∃ s ∈ m.msgstr, s ≠ ""))
    ∧ (m.untranslated = true ↔ (m.fuzzy = false ∧ ∀ s ∈ m.msgstr, s = ""))
    ∧ ¬(m.translated = true ∧ m.untranslated = true)
    ∧ ((m.translated = false ∧ m.untranslated = false) ↔ m.fuzzy = true) := by
  by_cases hf : m.fuzzy = true
  · simp [Msg.translated, Msg.untranslated, hf]
  · simp only [Bool.not_eq_true] at hf
    by_cases ha : m.msgstr.any (fun v => v ≠ "") = true
    · simp only [List.any_eq_true, decide_eq_true_iff] at ha
      simp [Msg.translated, Msg.untranslated, hf, List.any_eq_true, ha]
    · simp only [List.any_eq_true, decide_eq_true_iff, not_exists, not_and,
        not_not] at ha
      simp [Msg.translated, Msg.untranslated, hf, List.any_eq_true, ha]

/-- C10: `merge` fails with an error whenever the keys of the two
messages differ; when the keys are equal and either message is obsolete
it returns `False` and leaves every field of the target unchanged. -/
theorem merge_key_obsolete_guard (m o : Msg) :
    (m.key ≠ o.key → m.merge o = .error .keyMismatch)
    ∧ (m.key = o.key → (m.obsolete = true ∨ o.obsolete = true) →
        m.merge o = .ok (m, false)) := by
  constructor
  · intro h
    simp [Msg.merge, h]
  · intro h ho
    have hob : (m.obsolete || o.obsolete) = true := by
      rcases ho with ho | ho <;> simp [ho]
    simp [Msg.merge, h, hob]

/-- Witness for C10 at concrete inputs: differing keys give the error,
an obsolete participant gives an unchanged message and `False`. -/
theorem merge_key_obsolete_guard_witness :
    (Msg.merge msgLiveA msgLiveB = .error .keyMismatch)
    ∧ (Msg.merge msgObsA msgLiveA = .ok (msgObsA, false)) :=
  ⟨(merge_key_obsolete_guard msgLiveA msgLiveB).1 (by decide),
   (merge_key_obsolete_guard msgObsA msgLiveA).2 (by decide) (Or.inl rfl)⟩

/-- Helper for C4: on the text `~@/a` with two requested alternatives,
the outer loop of `resolve_alternatives` re-enters the same state
forever.  The inner loop fails to find the second separator and leaves
`p = -1`, so the next outer iteration rescans from position 0 and hits
the same directive again. -/
theorem resolveAltLoop_truncated_cycles (fuel : Nat) :
    ∀ nt nr mal, resolveAltLoop ("~@/a".toList) 1 2 none none
      DEFAULT_ALTHEAD fuel (-1) nt nr mal = none := by
  induction fuel with
  | zero => intro nt nr mal; rfl
  | succ n ih =>
      intro nt nr mal
      have hstep : resolveAltLoop ("~@/a".toList) 1 2 none none
            DEFAULT_ALTHEAD (n + 1) (-1) nt nr mal
          = resolveAltLoop ("~@/a".toList) 1 2 none none
            DEFAULT_ALTHEAD n (-1) ((nt ++ []) ++ []) nr (mal || true) := rfl
      rw [hstep]
      exact ih _ _ _

/-- C4 (code bug): the claim matches the function's own documentation
(resolve.py:177-180: on any malformed directive the original text is
returned with `malformed` indicated, and a directive-free text is
returned unchanged), and the code honours it for a truncated directive
(`~@x`); but on a directive with too few alternatives (`~@/a` with
`total = 2`) the code never returns: after the inner loop breaks with
`p = -1`, scanning restarts at position 0 and reprocesses the same
directive forever, modelled by `none` at every fuel. -/
theorem resolve_alternatives_malformed_bug :
    (∀ fuel, resolve_alternatives ("~@/a".toList) 1 2 none none
        DEFAULT_ALTHEAD fuel = none)
    ∧ (∀ fuel, resolve_alternatives ("abc".toList) 1 2 none none
        DEFAULT_ALTHEAD (fuel + 1) = some ("abc".toList, 0, false))
    ∧ resolve_alternatives ("~@x".toList) 1 2 none none
        DEFAULT_ALTHEAD 9 = some ("~@x".toList, 0, true) := by
  refine ⟨?_, ?_, rfl⟩
  · intro fuel
    unfold resolve_alternatives
    rw [resolveAltLoop_truncated_cycles fuel [] 0 false]
  · intro fuel
    rfl

/-- Helper: a found single-character pattern is the character at the
found position. -/
theorem pyFind_char_at {t : List Char} {c : Char} {s p : Nat}
    (h : pyFind t [c] s = some p) : t[p]? = some c := by
  unfold pyFind at h
  have hp := List.find?_some h
  simp only [Bool.and_eq_true, decide_eq_true_iff] at hp
  have hpre : [c].isPrefixOf (t.drop p) := by simpa [isSubAt] using hp.2
  have hg : t[p]? = (t.drop p)[0]? := by
    simp [List.getElem?_drop]
  rw [hg]
  cases hd : t.drop p with
  | nil => rw [hd] at hpre; simp [List.isPrefixOf] at hpre
  | cons a tl =>
      rw [hd] at hpre
      simp only [List.isPrefixOf, Bool.and_eq_true, beq_iff_eq] at hpre
      simp [hpre.1]

/-- Helper: a successful entity lookup yields the value of some map
entry. -/
theorem entLookup_mem {entities : List (List Char × List Char)}
    {n v : List Char} (h : entLookup entities n = some v) :
    ∃ pr ∈ entities, pr.2 = v := by
  unfold entLookup at h
  cases hf : entities.find? (fun pr => pr.1 = n) with
  | none => rw [hf] at h; exact Option.noConfusion h
  | some pr =>
      rw [hf] at h
      exact ⟨pr, List.mem_of_find?_eq_some hf, by injection h⟩

/-- Helper for C9: when every entity value is free of ampersands, one
scanning pass strictly decreases the number of ampersands by the number
of resolutions it performs (stated as an inequality: each resolution
consumes the ampersand of its reference, and substituted values add
none). -/
theorem resolveEntPassAux_count_le
    (entities : List (List Char × List Char)) (ignored : List (List Char))
    (nalts : Nat) (althead : List Char)
    (hvals : ∀ pr ∈ entities, ('&' : Char) ∉ pr.2) :
    ∀ fuel text newText resolved unknown,
      (resolveEntPassAux entities ignored false nalts althead fuel
          text newText resolved unknown).1.count '&'
        + (resolveEntPassAux entities ignored false nalts althead fuel
          text newText resolved unknown).2.1.length
      ≤ newText.count '&' + text.count '&' + resolved.length := by
  intro fuel
  induction fuel with
  | zero =>
    intro text newText resolved unknown
    simp [resolveEntPassAux, List.count_append]
  | succ n ih =>
    intro text newText resolved unknown
    rw [resolveEntPassAux]
    cases hf : pyFind text ['&'] 0 with
    | none => simp [List.count_append]
    | some p =>
      have hc : text[p]? = some '&' := pyFind_char_at hf
      have hsl : pySlice text 0 (p + 1) = text.take p ++ ['&'] := by
        simp only [pySlice, List.drop_zero, Nat.sub_zero]
        rw [List.take_succ, hc]; rfl
      have hsplit : text.count '&'
          = (text.take p).count '&' + 1 + (text.drop (p + 1)).count '&' := by
        conv_lhs => rw [← List.take_append_drop (p + 1) text]
        rw [List.count_append, List.take_succ, hc]
        simp [List.count_append]
      simp only [hsl]
      cases hm : entityTailMatch (text.drop (p + 1)) 0 with
      | none =>
        simp only [hm]
        have hih := ih (text.drop (p + 1))
          (newText ++ (text.take p ++ ['&'])) resolved unknown
        simp only [List.count_append] at hih
        simp only [List.count_cons_self, List.count_nil] at hih
        omega
      | some nm =>
        simp only [hm]
        by_cases hi : nm.1 ∈ ignored
        · simp only [if_pos hi]
          have hih := ih (text.drop (p + 1))
            (newText ++ (text.take p ++ ['&'])) resolved unknown
          simp only [List.count_append] at hih
          simp only [List.count_cons_self, List.count_nil] at hih
          omega
        · simp only [if_neg hi, Bool.false_and, Bool.false_eq_true, if_false]
          cases hl : entLookup entities nm.1 with
          | none =>
            simp only [hl]
            have hih := ih (text.drop (p + 1))
              (newText ++ (text.take p ++ ['&'])) resolved (unknown ++ [nm.1])
            simp only [List.count_append] at hih
            simp only [List.count_cons_self, List.count_nil] at hih
            omega
          | some entval =>
            simp only [hl]
            have hval : ('&' : Char) ∉ entval := by
              obtain ⟨pr, hpr, hv⟩ := entLookup_mem hl
              exact hv ▸ hvals pr hpr
            have hvc : entval.count '&' = 0 := List.count_eq_zero.mpr hval
            have hdl : (newText ++ (text.take p ++ ['&'])).dropLast
                = newText ++ text.take p := by
              rw [← List.append_assoc, List.dropLast_concat]
            have hsub : ((text.drop (p + 1)).drop nm.2).count '&'
                ≤ (text.drop (p + 1)).count '&' :=
              (List.drop_sublist nm.2 (text.drop (p + 1))).count_le '&'
            have hih := ih ((text.drop (p + 1)).drop nm.2)
              ((newText ++ (text.take p ++ ['&'])).dropLast ++ entval)
              (resolved ++ [nm.1]) unknown
            rw [hdl] at hih
            simp only [List.count_append, hvc, List.length_append,
              List.length_singleton] at hih
            rw [hdl]
            omega

/-- Helper for C9: with ampersand-free entity values the re-running of
`resolve_entities` reaches its fixed point within `count('&') + 1`
passes. -/
theorem resolveEntitiesFuel_total
    (entities : List (List Char × List Char)) (ignored : List (List Char))
    (nalts : Nat) (althead : List Char)
    (hvals : ∀ pr ∈ entities, ('&' : Char) ∉ pr.2) :
    ∀ k text, text.count '&' ≤ k →
      (resolveEntitiesFuel entities ignored false nalts althead
        (k + 1) text).isSome = true := by
  intro k
  induction k with
  | zero =>
    intro text hc
    rw [resolveEntitiesFuel]
    by_cases hres :
        (resolveEntPass entities ignored false nalts althead text).2.1 = []
    · simp [hres]
    · exfalso
      have hcl := resolveEntPassAux_count_le entities ignored nalts althead
        hvals (text.length + 1) text [] [] []
      have hlen : 0 <
          (resolveEntPass entities ignored false nalts althead text).2.1.length :=
        List.length_pos.mpr hres
      simp only [resolveEntPass] at hres hlen
      simp only [List.count_nil, List.length_nil] at hcl
      omega
  | succ kk ih =>
    intro text hc
    rw [resolveEntitiesFuel]
    by_cases hres :
        (resolveEntPass entities ignored false nalts althead text).2.1 = []
    · simp [hres]
    · have hcl := resolveEntPassAux_count_le entities ignored nalts althead
        hvals (text.length + 1) text [] [] []
      have hlen : 0 <
          (resolveEntPass entities ignored false nalts althead text).2.1.length :=
        List.length_pos.mpr hres
      have hrec := ih (resolveEntPass entities ignored false nalts althead text).1
        (by
          simp only [resolveEntPass] at *
          simp only [List.count_nil, List.length_nil] at hcl
          omega)
      simp only [hres, if_false]
      cases hx : resolveEntitiesFuel entities ignored false nalts althead
          (kk + 1) (resolveEntPass entities ignored false nalts althead text).1 with
      | none => rw [hx] at hrec; simp at hrec
      | some s => simp [hx]

/-- Helper for C9: on the counterexample map the resolver cycles
between the two texts `&b;` and `&a;;` forever. -/
theorem resolveEntities_c9_cycle (fuel : Nat) :
    resolveEntitiesFuel c9Entities [] false 0 DEFAULT_ALTHEAD fuel
      ("&b;".toList) = none
    ∧ resolveEntitiesFuel c9Entities [] false 0 DEFAULT_ALTHEAD fuel
      ("&a;;".toList) = none := by
  induction fuel with
  | zero => exact ⟨rfl, rfl⟩
  | succ n ih =>
    constructor
    · have h : resolveEntitiesFuel c9Entities [] false 0 DEFAULT_ALTHEAD
            (n + 1) ("&b;".toList)
          = (match resolveEntitiesFuel c9Entities [] false 0 DEFAULT_ALTHEAD
              n ("&a;;".toList) with
             | none => none
             | some s => some (s.1, ["b".toList] ++ s.2.1, [] ++ s.2.2)) := rfl
      rw [h, ih.2]
    · have h : resolveEntitiesFuel c9Entities [] false 0 DEFAULT_ALTHEAD
            (n + 1) ("&a;;".toList)
          = (match resolveEntitiesFuel c9Entities [] false 0 DEFAULT_ALTHEAD
              n ("&b;".toList) with
             | none => none
             | some s => some (s.1, ["a".toList] ++ s.2.1, [] ++ s.2.2)) := rfl
      rw [h, ih.1]

/-- C9 (counterexample): the entity map a ↦ "&b", b ↦ "&a;;" has an
acyclic value graph (the only reference inside a value is the `&a;` in
the value of b; the `&b` in the value of a lacks the closing semicolon
and is no reference), yet `resolve_entities` never terminates on the
text `&b;`: substituting a value that ends in a bare ampersand
concatenates with the following text into an ever-new reference, and
the two texts `&b;` and `&a;;` alternate forever. -/
theorem resolve_entities_acyclic_counterexample :
    AcyclicEntities c9Entities
    ∧ ∀ fuel, resolveEntitiesFuel c9Entities [] false 0 DEFAULT_ALTHEAD fuel
        ("&b;".toList) = none := by
  constructor
  · exact ⟨fun n => if n = "b".toList then 1 else 0, by decide⟩
  · exact fun fuel => (resolveEntities_c9_cycle fuel).1

/-- C9 (amended): `resolve_entities` re-runs on its own output while a
pass resolves at least one entity, stopping at a pass that resolves
none; it terminates whenever no entity value contains the ampersand
character — every resolution then strictly decreases the number of
ampersands, so the fixed point is reached within `count('&') + 1`
passes.  An acyclic value graph alone does not guarantee termination
(see the counterexample). -/
theorem resolve_entities_terminates_amended
    (entities : List (List Char × List Char)) (ignored : List (List Char))
    (nalts : Nat) (althead : List Char) (text : List Char)
    (hvals : ∀ pr ∈ entities, ('&' : Char) ∉ pr.2) :
    (resolveEntitiesFuel entities ignored false nalts althead
        (text.count '&' + 1) text).isSome = true :=
  resolveEntitiesFuel_total entities ignored nalts althead hvals
    (text.count '&') text le_rfl

/-- Witness for C9 at a concrete input: a single ampersand-free entity
value, resolved within the computed number of passes. -/
theorem resolve_entities_terminates_amended_witness :
    (resolveEntitiesFuel c9WitnessEntities [] false 0 DEFAULT_ALTHEAD
        (("see &x; go".toList).count '&' + 1) ("see &x; go".toList)).isSome
      = true :=
  resolve_entities_terminates_amended c9WitnessEntities [] 0 DEFAULT_ALTHEAD
    ("see &x; go".toList) (by decide)

/-- Helper: last element of an appended non-empty block. -/
theorem getLast?_append_ne {α : Type} (l1 l2 : List α) (h : l2 ≠ []) :
    (l1 ++ l2).getLast? = l2.getLast? := by
  rw [List.getLast?_append]
  cases ht : l2.getLast? with
  | none => rw [List.getLast?_eq_none_iff] at ht; exact absurd ht h
  | some b => simp [Option.or]

/-- Helper: erasure at the junction of an append. -/
theorem eraseIdx_append_len {α : Type} (P X : List α) (x : α) :
    (P ++ x :: X).eraseIdx P.length = P ++ X := by
  induction P with
  | nil => simp [List.eraseIdx]
  | cons a P ih => simp [List.eraseIdx, ih]

/-- Helper: insertion at the junction of an append. -/
theorem insertIdx_append_len {α : Type} (P X : List α) (x : α) :
    List.insertIdx P.length x (P ++ X) = P ++ x :: X := by
  induction P with
  | nil => simp
  | cons a P ih =>
      rw [List.length_cons, List.cons_append, List.insertIdx_succ_cons, ih]
      simp

/-- Helper: the element at the junction of an append. -/
theorem get?_append_len {α : Type} (P X : List α) (x : α) :
    (P ++ x :: X).get? P.length = some x := by
  induction P with
  | nil => rfl
  | cons a P ih => simpa using ih

/-- Helper: emitting after an already non-trivial prefix appends the
entry's own block. -/
theorem addBlank_append (fl ls : List (List Char)) (h : ls ≠ []) :
    addBlank (fl ++ ls) = fl ++ addBlank ls := by
  unfold addBlank
  rw [getLast?_append_ne fl ls h]
  by_cases hl : ls.getLast? = some ['\n'] <;> simp [hl]

/-- Helper for C1/C3, tail phase of the serialization loop of `sync`:
once the scan position has passed the reinsertion frontier, the loop
only emits, in order, the lines of the entries not scheduled for
removal, and the sequence is unchanged.  The fuel must exceed the
number of remaining entries; the emitted lines are characterized when
every emitted entry has at least one line. -/
theorem syncLoop_tail (render : SEntry → List (List Char))
    (force noobsend : Bool) :
    ∀ (R : List SEntry) (fuel : Nat) (P : List SEntry) (obstop obsins : Nat)
      (flines : List (List Char)),
      obstop ≤ P.length → R.length < fuel →
      (syncLoop render force noobsend (P.length + R.length) fuel (P ++ R)
          P.length obstop obsins flines).2 = P ++ R
      ∧ ((∀ m ∈ R, m.removeOnSync = false →
            toLines render (force || !m.committed) m ≠ []) →
         (syncLoop render force noobsend (P.length + R.length) fuel (P ++ R)
            P.length obstop obsins flines).1
          = flines ++ (R.map (emitOne render force)).flatten) := by
  intro R
  induction R with
  | nil =>
    intro fuel P obstop obsins flines hob hf
    cases fuel with
    | zero => omega
    | succ n => constructor <;> simp [syncLoop]
  | cons r R ih =>
    intro fuel P obstop obsins flines hob hf
    cases fuel with
    | zero => omega
    | succ n =>
      rw [syncLoop]
      have hile : ¬(P.length + (r :: R).length ≤ P.length) := by
        simp
      rw [if_neg hile, get?_append_len]
      have hre : P ++ r :: R = (P ++ [r]) ++ R := by simp
      have hlen : P.length + (r :: R).length
          = (P ++ [r]).length + R.length := by
        simp; omega
      have hlen1 : P.length + 1 = (P ++ [r]).length := by simp
      have hoblen : obstop ≤ (P ++ [r]).length := by simp; omega
      have hflen : R.length < n := by simp at hf; omega
      cases hrm : r.removeOnSync with
      | true =>
        simp only [hrm, if_pos]
        rw [hre, hlen, hlen1]
        have h2 := ih n (P ++ [r]) obstop obsins flines hoblen hflen
        refine ⟨by rw [h2.1], ?_⟩
        intro hx
        rw [h2.2 (fun m hm => hx m (by simp [hm]))]
        simp [emitOne, hrm]
      | false =>
        have hdec : decide (P.length < obstop) = false :=
          decide_eq_false (by omega)
        simp only [hrm, hdec, Bool.and_false, Bool.false_eq_true, if_false]
        rw [hre, hlen, hlen1]
        have h2 := ih n (P ++ [r]) obstop obsins
          (addBlank (flines ++ toLines render (force || !r.committed) r))
          hoblen hflen
        refine ⟨by rw [h2.1], ?_⟩
        intro hx
        rw [h2.2 (fun m hm => hx m (by simp [hm]))]
        rw [addBlank_append _ _ (hx r (by simp) hrm)]
        simp [emitOne, hrm]

/-- Helper for C1/C3, main phase of the serialization loop of `sync`:
from a state whose sequence splits into emitted prefix `P`, unprocessed
region `A` up to the frontier, already-hoisted block `M` and original
trailing block `B`, the loop hoists the movable entries of `A` behind
`M` (keeping their relative order) and emits everything else in place;
the emitted lines are characterized when every emitted entry has at
least one line. -/
theorem syncLoop_main (render : SEntry → List (List Char))
    (force noobsend : Bool) :
    ∀ (A : List SEntry) (fuel : Nat) (P M B : List SEntry)
      (flines : List (List Char)),
      A.length + A.length + M.length + B.length < fuel →
      (syncLoop render force noobsend
          (P.length + A.length + M.length + B.length) fuel
          (P ++ A ++ M ++ B) P.length (P.length + A.length)
          (P.length + A.length + M.length) flines).2
        = P ++ A.filter (fun m => !movedB noobsend m)
            ++ (M ++ A.filter (movedB noobsend)) ++ B
      ∧ ((∀ m ∈ A ++ M ++ B, m.removeOnSync = false →
            toLines render (force || !m.committed) m ≠ []) →
         (syncLoop render force noobsend
            (P.length + A.length + M.length + B.length) fuel
            (P ++ A ++ M ++ B) P.length (P.length + A.length)
            (P.length + A.length + M.length) flines).1
          = flines ++ ((A.filter (fun m => !movedB noobsend m)
              ++ (M ++ A.filter (movedB noobsend)) ++ B).map
                (emitOne render force)).flatten) := by
  intro A
  induction A with
  | nil =>
    intro fuel P M B flines hfuel
    simp only [List.nil_append, List.append_nil, List.length_nil,
      Nat.add_zero, List.filter_nil]
    have hlen2 : P.length + M.length + B.length
        = P.length + (M ++ B).length := by
      simp [Nat.add_assoc]
    have hassoc : P ++ M ++ B = P ++ (M ++ B) := by simp
    rw [hlen2, hassoc]
    have h1 := syncLoop_tail render force noobsend (M ++ B) fuel P
      P.length (P.length + M.length) flines le_rfl
      (by simp at hfuel ⊢; omega)
    exact ⟨by rw [h1.1],
      fun hx => by rw [h1.2 (fun m hm => hx m (by simpa using hm))]⟩
  | cons a A' ih =>
    intro fuel P M B flines hfuel
    cases fuel with
    | zero => omega
    | succ n =>
      have hlist : P ++ (a :: A') ++ M ++ B = P ++ a :: (A' ++ M ++ B) := by
        simp
      rw [hlist, syncLoop]
      rw [if_neg (by simp; omega), get?_append_len]
      have hADec : A'.length + A'.length + (M ++ [a]).length + B.length < n := by
        simp at hfuel ⊢; omega
      have hADec2 : A'.length + A'.length + M.length + B.length < n := by
        simp at hfuel ⊢; omega
      cases hrm : a.removeOnSync with
      | true =>
        simp only [hrm, if_pos]
        have hl1 : P ++ a :: (A' ++ M ++ B) = (P ++ [a]) ++ A' ++ M ++ B := by
          simp
        have hl2 : P.length + (a :: A').length + M.length + B.length
            = (P ++ [a]).length + A'.length + M.length + B.length := by
          simp; omega
        have hl3 : P.length + 1 = (P ++ [a]).length := by simp
        have hl4 : P.length + (a :: A').length
            = (P ++ [a]).length + A'.length := by
          simp; omega
        rw [hl1, hl2, hl3, hl4]
        have h2 := ih n (P ++ [a]) M B flines hADec2
        have hmva : movedB noobsend a = false := by simp [movedB, hrm]
        constructor
        · rw [h2.1]
          simp [List.filter_cons, hmva]
        · intro hx
          rw [h2.2 (fun m hm => hx m (by simp at hm ⊢; tauto))]
          simp [List.filter_cons, hmva, emitOne, hrm]
      | false =>
        have hdec : decide (P.length < P.length + (a :: A').length) = true := by
          simp
        simp only [hrm, hdec, Bool.and_true, Bool.false_eq_true, if_false]
        cases hob : (!noobsend && a.obsolete) with
        | true =>
          simp only [hob, if_pos]
          have hmva : movedB noobsend a = true := by simp [movedB, hrm, hob]
          have her : (P ++ a :: (A' ++ M ++ B)).eraseIdx P.length
              = P ++ (A' ++ M ++ B) := eraseIdx_append_len P _ a
          rw [her]
          have hins : P.length + (a :: A').length + M.length - 1
              = ((P ++ A') ++ M).length := by
            simp; omega
          have hl6 : P ++ (A' ++ M ++ B) = ((P ++ A') ++ M) ++ B := by simp
          rw [hins, hl6, insertIdx_append_len]
          have hl7 : ((P ++ A') ++ M) ++ a :: B
              = P ++ A' ++ (M ++ [a]) ++ B := by simp
          have hl8 : P.length + (a :: A').length + M.length + B.length
              = P.length + A'.length + (M ++ [a]).length + B.length := by
            simp; omega
          have hl9 : P.length + (a :: A').length - 1
              = P.length + A'.length := by
            simp
          have hl10 : P.length + (a :: A').length + M.length
              = P.length + A'.length + (M ++ [a]).length := by
            simp; omega
          rw [hl7, hl8, hl9, hl10]
          have h2 := ih n P (M ++ [a]) B flines hADec
          constructor
          · rw [h2.1]
            simp [List.filter_cons, hmva]
          · intro hx
            rw [h2.2 (fun m hm => hx m (by simp at hm ⊢; tauto))]
            simp [List.filter_cons, hmva]
        | false =>
          simp only [hob, Bool.false_eq_true, if_false]
          have hmva : movedB noobsend a = false := by simp [movedB, hrm, hob]
          have hl1 : P ++ a :: (A' ++ M ++ B) = (P ++ [a]) ++ A' ++ M ++ B := by
            simp
          have hl2 : P.length + (a :: A').length + M.length + B.length
              = (P ++ [a]).length + A'.length + M.length + B.length := by
            simp; omega
          have hl3 : P.length + 1 = (P ++ [a]).length := by simp
          have hl4 : P.length + (a :: A').length
              = (P ++ [a]).length + A'.length := by
            simp; omega
          rw [hl1, hl2, hl3, hl4]
          have h2 := ih n (P ++ [a]) M B
            (addBlank (flines ++ toLines render (force || !a.committed) a))
            hADec2
          constructor
          · rw [h2.1]
            simp [List.filter_cons, hmva]
          · intro hx
            rw [h2.2 (fun m hm => hx m (by simp at hm ⊢; tauto))]
            rw [addBlank_append _ _ (hx a (by simp) hrm)]
            simp [List.filter_cons, hmva, emitOne, hrm]

/-- C5 (code bug): when a quoted field value holds an escaped quote,
the parsed value keeps the backslash.  `_findEndQuote` builds the local
`string` with the backslash before the quote removed — exactly as its
docstring (rules.py:1636-1638) and the claim describe — but returns
only the end position and discards `string`; the caller
(rules.py:1621-1625) slices the raw line, so `id="a\"b"` parses to the
value `a\"b` instead of the documented `a"b`. -/
theorem rule_quote_escape_bug :
    parseRuleLine [ruleEscLine] 1
      = .ok ([("id".toList, some "a\\\"b".toList)], 1)
    ∧ findEndQuote ruleEscLine 3 = .ok (8, "a\"b".toList)
    ∧ "a\\\"b".toList ≠ "a\"b".toList := by
  exact ⟨rfl, rfl, by decide⟩

/-- C7 (counterexample): two rules with the same id but different
effective environments are not accepted.  In `c7FileA` the two rules
carry rule-specific environments env1 and env2 (exhibited by loading
the same file without the id lines), yet loading fails with
`IdentError("x", 3)`, because the conflict check
(rules.py:714-717) compares only the file-wide default environment
(`globalEnviron`, here absent for both), never the rule's own. -/
theorem ident_conflict_counterexample :
    loadRules c7FileA = .error (.identError (some "x".toList) 3)
    ∧ loadRules c7FileNoIds
      = .ok [⟨"foo".toList, "msgid".toList, some [], [], true, none, false,
              some "env1".toList⟩,
             ⟨"bar".toList, "msgid".toList, some [], [], true, none, false,
              some "env2".toList⟩] := by
  exact ⟨rfl, rfl⟩

/-- C7 (amended): loading a rule file in which two rules carry the same
id and the same file-wide default environment in force at their id
lines fails with an `IdentError` carrying the identifier and the line
number of the previous occurrence; the rule's own environment plays no
role in the check (the conflict outcome is invariant under the
rule-specific environment of the loader state), so two rules with the
same id are accepted exactly when the file-wide default environments at
their id lines differ. -/
theorem ident_conflict_amended :
    (∀ (st : LoadState) (v : Option (List Char)) (lno : Nat)
        (e e' : Option (List Char)) (err : RuleErr), st.inRule = true →
      (dispatchDirective { st with environ := e }
          [("id".toList, v)] lno = .error err
        ↔ dispatchDirective { st with environ := e' }
          [("id".toList, v)] lno = .error err))
    ∧ (∀ (st : LoadState) (v : Option (List Char)) (lno : Nat)
          (prev : Nat × Option (List Char)), st.inRule = true →
        assocFind st.identLines v = some prev →
        (dispatchDirective st [("id".toList, v)] lno
            = .error (.identError v prev.1)
          ↔ prev.2 = st.globalEnviron))
    ∧ loadRules c7FileA = .error (.identError (some "x".toList) 3)
    ∧ loadRules c7FileB
      = .ok [⟨"foo".toList, "msgid".toList, some [], [], true,
              some "x".toList, false, some "g1".toList⟩,
             ⟨"bar".toList, "msgid".toList, some [], [], true,
              some "x".toList, false, some "g2".toList⟩] := by
  refine ⟨?_, ?_, rfl, rfl⟩
  · intro st v lno e e' err hin
    unfold dispatchDirective
    simp only [List.head?, hin]
    norm_num
    cases assocFind st.identLines v with
    | none => simp
    | some prev =>
        by_cases hp : prev.2 = st.globalEnviron <;> simp [hp]
  · intro st v lno prev hin hfind
    unfold dispatchDirective
    simp only [List.head?, hin, hfind]
    norm_num
    by_cases hp : prev.2 = st.globalEnviron <;> simp [hp]

/-- Witness for C7 (amended) at concrete inputs. -/
theorem ident_conflict_amended_witness :
    ((dispatchDirective { c7StateW with environ := some "e1".toList }
        [("id".toList, some "x".toList)] 5 = .error .unknownDirective)
      ↔ (dispatchDirective { c7StateW with environ := some "e2".toList }
        [("id".toList, some "x".toList)] 5 = .error .unknownDirective))
    ∧ ((dispatchDirective c7StateW2 [("id".toList, some "x".toList)] 5
        = .error (.identError (some "x".toList) 2))
      ↔ (some "g".toList : Option (List Char)) = c7StateW2.globalEnviron) :=
  ⟨ident_conflict_amended.1 c7StateW (some "x".toList) 5
      (some "e1".toList) (some "e2".toList) .unknownDirective rfl,
   ident_conflict_amended.2.1 c7StateW2 (some "x".toList) 5
      (2, some "g".toList) rfl (by decide)⟩

/-- C6 (counterexample): `remove_accelerator("Foo &Bar (&B)")` does not
return `"Foo Bar"`.  With the default arguments (`accels = None`,
`greedy = False`) the text is returned untouched (resolve.py:534-536);
with the greedy usual markers the function removes only the first valid
marker and stops (`break` at resolve.py:579), leaving `"Foo Bar (&B)"`. -/
theorem remove_accelerator_counterexample :
    remove_accelerator ("Foo &Bar (&B)".toList) none true
      = some ("Foo Bar (&B)".toList)
    ∧ remove_accelerator ("Foo &Bar (&B)".toList) none false
      = some ("Foo &Bar (&B)".toList)
    ∧ "Foo Bar (&B)".toList ≠ "Foo Bar".toList
    ∧ "Foo &Bar (&B)".toList ≠ "Foo Bar".toList := by
  exact ⟨rfl, rfl, by decide, by decide⟩

/-- C6 (amended): with the greedy usual markers,
`remove_accelerator("Foo &Bar (&B)")` removes only the first
accelerator marker, giving `"Foo Bar (&B)"`; the trailing parenthesized
group is removed entirely only when the removed marker itself lies
inside it, as in `remove_accelerator("Foo Bar (&B)") = "Foo Bar"`;
and `"Foo & Bar"` is returned unchanged (the ampersand does not precede
an alphanumeric), as is any text under the default arguments. -/
theorem remove_accelerator_amended :
    remove_accelerator ("Foo &Bar (&B)".toList) none true
      = some ("Foo Bar (&B)".toList)
    ∧ remove_accelerator ("Foo Bar (&B)".toList) none true
      = some ("Foo Bar".toList)
    ∧ remove_accelerator ("Foo & Bar".toList) none true
      = some ("Foo & Bar".toList)
    ∧ remove_accelerator ("Foo & Bar".toList) none false
      = some ("Foo & Bar".toList) := by
  exact ⟨rfl, rfl, rfl, rfl⟩

/-- C3: during `sync` with `noobsend = false`, the trailing run of
obsolete messages defines a frontier `obstop`; when no entry is
scheduled for removal, the reorder loop moves every obsolete message
located before the frontier to just before it, preserving the relative
order among the moved messages (the sequence becomes: the non-obsolete
entries of the prefix, then the hoisted obsolete ones, then the
trailing obsolete run); in particular the loaded order header,
M1 (live), M2 (obsolete), M3 (live) becomes M1, M3, M2 after `sync`. -/
theorem obsolete_hoist_spec :
    (∀ (render : SEntry → List (List Char)) (force : Bool)
        (msgs : List SEntry),
      (∀ m ∈ msgs, m.removeOnSync = false) →
      (syncLoop render force false msgs.length
          (msgs.length + obstopOf msgs + 1) msgs 0 (obstopOf msgs)
          (obstopOf msgs) []).2
        = (msgs.take (obstopOf msgs)).filter (fun m => !m.obsolete)
            ++ (msgs.take (obstopOf msgs)).filter (fun m => m.obsolete)
            ++ msgs.drop (obstopOf msgs))
    ∧ syncResultMsgs (fun _ => []) false false [sHeader, sM1, sM2, sM3]
        = [sM1, sM3, sM2] := by
  constructor
  · intro render force msgs hrm
    have hot : obstopOf msgs ≤ msgs.length := Nat.sub_le _ _
    have hA : (msgs.take (obstopOf msgs)).length = obstopOf msgs := by
      simp [Nat.min_eq_left hot]
    have hmem : ∀ m ∈ msgs.take (obstopOf msgs), m.removeOnSync = false :=
      fun m hm => hrm m (List.take_subset _ _ hm)
    have h := (syncLoop_main render force false (msgs.take (obstopOf msgs))
      (msgs.length + obstopOf msgs + 1) [] []
      (msgs.drop (obstopOf msgs)) [] (by simp [hA]; omega)).1
    simp only [List.nil_append, List.append_nil, List.length_nil,
      Nat.zero_add, Nat.add_zero] at h
    rw [List.take_append_drop, hA, List.length_drop] at h
    have hlen : obstopOf msgs + (msgs.length - obstopOf msgs)
        = msgs.length := by omega
    rw [hlen] at h
    have hf1 : (msgs.take (obstopOf msgs)).filter
          (fun m => !movedB false m)
        = (msgs.take (obstopOf msgs)).filter (fun m => !m.obsolete) :=
      List.filter_congr (fun m hm => by simp [movedB, hmem m hm])
    have hf2 : (msgs.take (obstopOf msgs)).filter (movedB false)
        = (msgs.take (obstopOf msgs)).filter (fun m => m.obsolete) :=
      List.filter_congr (fun m hm => by simp [movedB, hmem m hm])
    rw [hf1, hf2] at h
    exact h
  · decide

/-- Witness for C3 at the concrete four-entry catalog: the reorder loop
turns header, M1, M2 (obsolete), M3 into header, M1, M3, M2. -/
theorem obsolete_hoist_spec_witness :
    (syncLoop (fun _ => []) false false
        ([sHeader, sM1, sM2, sM3] : List SEntry).length
        (([sHeader, sM1, sM2, sM3] : List SEntry).length
          + obstopOf [sHeader, sM1, sM2, sM3] + 1)
        [sHeader, sM1, sM2, sM3] 0 (obstopOf [sHeader, sM1, sM2, sM3])
        (obstopOf [sHeader, sM1, sM2, sM3]) []).2
      = [sHeader, sM1, sM3, sM2] :=
  (obsolete_hoist_spec.1 (fun _ => []) false [sHeader, sM1, sM2, sM3]
      (by decide)).trans (by decide)

theorem tryFinish_cache (st : PState) :
    ((tryFinish st).done = st.done
      ∧ (tryFinish st).cur.linesAll = st.cur.linesAll)
    ∨ (st.fieldCtx = .fmsgstr ∧ (tryFinish st).done = st.done ++ [st.cur]
        ∧ (tryFinish st).cur.linesAll = []) := by
  unfold tryFinish
  split
  · next hf => exact Or.inr ⟨hf, by simp, by simp [emptyPEntry]⟩
  · exact Or.inl ⟨rfl, rfl⟩

theorem contAppend_cache (st : PState) (line : List Char) (age : Age)
    (st' : PState) (h : contAppend st line age = .ok st') :
    st'.done = st.done ∧ st'.cur.linesAll = st.cur.linesAll := by
  unfold contAppend at h
  split at h
  · obtain rfl : st = st' := by simpa using h
    exact ⟨rfl, rfl⟩
  · split at h
    · split at h <;>
        · obtain rfl := (by simpa using h : _ = st')
          exact ⟨by simp, by simp⟩
    · simp at h

theorem keywordStart_cache (st : PState) (line : List Char) (obsol : Bool)
    (age : Age) (lno : Nat) (st1 : PState) (rest : List Char)
    (h : keywordStart st line obsol age lno = .ok (st1, rest)) :
    (st1.done = st.done ∧ st1.cur.linesAll = st.cur.linesAll)
    ∨ (st.fieldCtx = .fmsgstr ∧ st1.done = st.done ++ [st.cur]
        ∧ st1.cur.linesAll = []) := by
  have htf := tryFinish_cache st
  unfold keywordStart at h
  split at h
  · -- empty line
    simp only [Except.ok.injEq, Prod.mk.injEq] at h
    obtain ⟨rfl, -⟩ := h
    exact Or.inl ⟨rfl, rfl⟩
  · split at h
    · -- msgctxt
      simp only [Except.ok.injEq, Prod.mk.injEq] at h
      obtain ⟨rfl, -⟩ := h
      rcases htf with ⟨ha, hb⟩ | ⟨ha, hb, hc⟩
      · exact Or.inl ⟨by simpa using ha, by simpa using hb⟩
      · exact Or.inr ⟨ha, by simpa using hb, by simpa using hc⟩
    · split at h
      · -- msgid_plural
        simp only [Except.ok.injEq, Prod.mk.injEq] at h
        obtain ⟨rfl, -⟩ := h
        exact Or.inl ⟨by simp, by simp⟩
      · split at h
        · -- msgid
          simp only [Except.ok.injEq, Prod.mk.injEq] at h
          obtain ⟨rfl, -⟩ := h
          rcases htf with ⟨ha, hb⟩ | ⟨ha, hb, hc⟩
          · exact Or.inl ⟨by simpa [apply_ite PState.done] using ha,
              by simpa [apply_ite PState.cur, apply_ite PEntry.linesAll]
                using hb⟩
          · exact Or.inr ⟨ha, by simpa [apply_ite PState.done] using hb,
              by simpa [apply_ite PState.cur, apply_ite PEntry.linesAll]
                using hc⟩
        · split at h
          · -- msgstr
            dsimp only [] at h
            split at h
            · -- with ordinal
              split at h
              · exact Except.noConfusion h
              · split at h
                · simp only [Except.ok.injEq, Prod.mk.injEq] at h
                  obtain ⟨rfl, -⟩ := h
                  exact Or.inl ⟨by simp, by simp⟩
                · exact Except.noConfusion h
            · -- plain msgstr
              simp only [Except.ok.injEq, Prod.mk.injEq] at h
              obtain ⟨rfl, -⟩ := h
              exact Or.inl ⟨by simp, by simp⟩
          · split at h
            · exact Except.noConfusion h
            · -- continuation line handed through
              simp only [Except.ok.injEq, Prod.mk.injEq] at h
              obtain ⟨rfl, -⟩ := h
              exact Or.inl ⟨rfl, rfl⟩

theorem keywordCont_cache (st : PState) (line : List Char) (obsol : Bool)
    (age : Age) (lno : Nat) (st' : PState)
    (h : keywordCont st line obsol age lno = .ok st') :
    (st'.done = st.done ∧ st'.cur.linesAll = st.cur.linesAll)
    ∨ (st.fieldCtx = .fmsgstr ∧ st'.done = st.done ++ [st.cur]
        ∧ st'.cur.linesAll = []) := by
  unfold keywordCont at h
  cases hks : keywordStart st line obsol age lno with
  | error e => rw [hks] at h; exact Except.noConfusion h
  | ok stl =>
    rw [hks] at h
    obtain ⟨s1, l1⟩ := stl
    obtain ⟨hc1, hc2⟩ := contAppend_cache s1 l1 age st' h
    rcases keywordStart_cache st line obsol age lno s1 l1 hks with
      ⟨ha, hb⟩ | ⟨ha, hb, hc⟩
    · exact Or.inl ⟨hc1.trans ha, hc2.trans hb⟩
    · exact Or.inr ⟨ha, hc1.trans hb, hc2.trans hc⟩

theorem processLine_cache (st : PState) (lineRaw : List Char) (lno : Nat)
    (st1 : PState) (age : Age)
    (h : processLine st lineRaw lno = .ok (st1, age)) :
    (st1.done = st.done ∧ st1.cur.linesAll = st.cur.linesAll)
    ∨ (st.fieldCtx = .fmsgstr ∧ st1.done = st.done ++ [st.cur]
        ∧ st1.cur.linesAll = []) := by
  have htf := tryFinish_cache st
  unfold processLine at h
  dsimp only [] at h
  split at h
  · split at h
    · -- #~|
      cases hkc : keywordCont st (charLstrip ((charTrim lineRaw).drop 3))
          false .previous lno with
      | error e => rw [hkc] at h; exact Except.noConfusion h
      | ok s =>
        rw [hkc] at h
        simp only [Except.map, Except.ok.injEq, Prod.mk.injEq] at h
        obtain ⟨rfl, -⟩ := h
        exact keywordCont_cache st _ false .previous lno s hkc
    · split at h
      · -- #~
        cases hkc : keywordCont st (charLstrip ((charTrim lineRaw).drop 2))
            true .current lno with
        | error e => rw [hkc] at h; exact Except.noConfusion h
        | ok s =>
          rw [hkc] at h
          simp only [Except.map, Except.ok.injEq, Prod.mk.injEq] at h
          obtain ⟨rfl, -⟩ := h
          exact keywordCont_cache st _ true .current lno s hkc
      · split at h
        · -- #|
          cases hkc : keywordCont st (charLstrip ((charTrim lineRaw).drop 2))
              false .previous lno with
          | error e => rw [hkc] at h; exact Except.noConfusion h
          | ok s =>
            rw [hkc] at h
            simp only [Except.map, Except.ok.injEq, Prod.mk.injEq] at h
            obtain ⟨rfl, -⟩ := h
            exact keywordCont_cache st _ false .previous lno s hkc
        · split at h
          · -- #:
            simp only [Except.ok.injEq, Prod.mk.injEq] at h
            obtain ⟨rfl, -⟩ := h
            rcases htf with ⟨ha, hb⟩ | ⟨ha, hb, hc⟩
            · exact Or.inl ⟨by simpa using ha,
                by simpa [addSrcrefs] using hb⟩
            · exact Or.inr ⟨ha, by simpa using hb,
                by simpa [addSrcrefs] using hc⟩
          · split at h
            · -- #,
              simp only [Except.ok.injEq, Prod.mk.injEq] at h
              obtain ⟨rfl, -⟩ := h
              rcases htf with ⟨ha, hb⟩ | ⟨ha, hb, hc⟩
              · exact Or.inl ⟨by simpa using ha,
                  by simpa [addFlags] using hb⟩
              · exact Or.inr ⟨ha, by simpa using hb,
                  by simpa [addFlags] using hc⟩
            · split at h
              · -- #.
                simp only [Except.ok.injEq, Prod.mk.injEq] at h
                obtain ⟨rfl, -⟩ := h
                rcases htf with ⟨ha, hb⟩ | ⟨ha, hb, hc⟩
                · exact Or.inl ⟨by simpa using ha, by simpa using hb⟩
                · exact Or.inr ⟨ha, by simpa using hb, by simpa using hc⟩
              · -- other comment
                simp only [Except.ok.injEq, Prod.mk.injEq] at h
                obtain ⟨rfl, -⟩ := h
                rcases htf with ⟨ha, hb⟩ | ⟨ha, hb, hc⟩
                · exact Or.inl ⟨by simpa using ha, by simpa using hb⟩
                · exact Or.inr ⟨ha, by simpa using hb, by simpa using hc⟩
  · -- keyword line
    cases hkc : keywordCont st (charTrim lineRaw) false .current lno with
    | error e => rw [hkc] at h; exact Except.noConfusion h
    | ok s =>
      rw [hkc] at h
      simp only [Except.map, Except.ok.injEq, Prod.mk.injEq] at h
      obtain ⟨rfl, -⟩ := h
      exact keywordCont_cache st _ false .current lno s hkc

theorem cacheUpdate_cache (st : PState) (lineRaw : List Char) (age : Age)
    (st2 : PState) (h : cacheUpdate st lineRaw age = .ok st2) :
    st2.done = st.done ∧ st2.cur.linesAll = st.cur.linesAll ++ [lineRaw] := by
  unfold cacheUpdate at h
  dsimp only [] at h
  split at h
  · simp only [Except.ok.injEq] at h
    obtain rfl := h
    exact ⟨rfl, by simp⟩
  · split at h
    · simp only [Except.ok.injEq] at h
      obtain rfl := h
      exact ⟨rfl, by simp⟩
    · split at h
      · simp only [Except.ok.injEq] at h
        obtain rfl := h
        exact ⟨rfl, by simp⟩
      · split at h
        · simp only [Except.ok.injEq] at h
          obtain rfl := h
          exact ⟨rfl, by simp⟩
        · split at h <;>
            first
            | exact Except.noConfusion h
            | · simp only [Except.ok.injEq] at h
                obtain rfl := h
                exact ⟨rfl, by simp⟩

theorem stepLine_inv (st : PState) (lineRaw : List Char) (lno : Nat)
    (st2 : PState) (h : stepLine st lineRaw lno = .ok st2) (hinv : PInv st) :
    PInv st2 ∧ pstateCache st2
      = pstateCache st ++ (if charTrim lineRaw = [] then [] else [lineRaw]) := by
  unfold stepLine at h
  split at h
  · next hbl =>
    simp only [Except.ok.injEq] at h
    obtain rfl := h
    exact ⟨hinv, by simp [hbl]⟩
  · next hbl =>
    cases hpl : processLine st lineRaw lno with
    | error e => rw [hpl] at h; exact Except.noConfusion h
    | ok sa =>
      rw [hpl] at h
      obtain ⟨s1, age⟩ := sa
      have hcu := cacheUpdate_cache s1 lineRaw age st2 h
      have hrel := processLine_cache st lineRaw lno s1 age hpl
      obtain ⟨hd1, hd2, hd3⟩ := hinv
      refine ⟨⟨?_, ?_, ?_⟩, ?_⟩
      · rw [hcu.1]
        rcases hrel with ⟨ha, -⟩ | ⟨hf, ha, -⟩
        · rw [ha]; exact hd1
        · rw [ha]
          intro e he
          rcases List.mem_append.mp he with he | he
          · exact hd1 e he
          · rcases List.mem_singleton.mp he with rfl
            exact ⟨hd3 hf, hd2⟩
      · rw [hcu.2]
        intro l hl
        rcases List.mem_append.mp hl with hl | hl
        · rcases hrel with ⟨-, hb⟩ | ⟨-, -, hb⟩
          · exact hd2 l (hb ▸ hl)
          · rw [hb] at hl; exact absurd hl (List.not_mem_nil l)
        · rcases List.mem_singleton.mp hl with rfl
          exact hbl
      · intro _
        simp [hcu.2]
      · unfold pstateCache
        rw [hcu.1, hcu.2]
        rcases hrel with ⟨ha, hb⟩ | ⟨-, ha, hb⟩
        · rw [ha, hb]
          simp [pstateCache, hbl]
        · rw [ha, hb]
          simp [pstateCache, hbl]

theorem parseLinesGo_inv :
    ∀ (lines : List (List Char)) (st : PState) (lno : Nat) (st' : PState),
      parseLinesGo st lno lines = .ok st' → PInv st →
      PInv st' ∧ pstateCache st'
        = pstateCache st ++ lines.filter (fun l => charTrim l ≠ []) := by
  intro lines
  induction lines with
  | nil =>
    intro st lno st' h hinv
    unfold parseLinesGo at h
    simp only [Except.ok.injEq] at h
    obtain rfl := h
    exact ⟨hinv, by simp⟩
  | cons l rest ih =>
    intro st lno st' h hinv
    unfold parseLinesGo at h
    cases hsl : stepLine st l lno with
    | error e => rw [hsl] at h; exact Except.noConfusion h
    | ok stm =>
      rw [hsl] at h
      obtain ⟨hinv1, hS1⟩ := stepLine_inv st l lno stm hsl hinv
      obtain ⟨hinv2, hS2⟩ := ih stm (lno + 1) st' h hinv1
      refine ⟨hinv2, ?_⟩
      rw [hS2, hS1]
      by_cases hb : charTrim l = []
      · simp [hb, List.filter_cons]
      · simp [hb, List.filter_cons]

theorem tryFinish_S (st : PState) :
    pstateCache (tryFinish st) = pstateCache st := by
  unfold tryFinish pstateCache
  split
  · simp [emptyPEntry]
  · rfl

theorem tryFinish_done (st : PState) (hinv : PInv st) :
    ∀ e ∈ (tryFinish st).done,
      e.linesAll ≠ [] ∧ ∀ l ∈ e.linesAll, charTrim l ≠ [] := by
  obtain ⟨hd1, hd2, hd3⟩ := hinv
  unfold tryFinish
  split
  · next hf =>
    intro e he
    simp only [PState.done] at he
    rcases List.mem_append.mp he with he | he
    · exact hd1 e he
    · rcases List.mem_singleton.mp he with rfl
      exact ⟨hd3 hf, hd2⟩
  · exact hd1

theorem parseCatalogFull_cache (lines : List (List Char)) (es : List PEntry)
    (leftover : List (List Char))
    (h : parseCatalogFull lines = .ok (es, leftover)) :
    (es.map PEntry.linesAll).flatten ++ leftover
        = lines.filter (fun l => charTrim l ≠ [])
    ∧ ∀ e ∈ es, e.linesAll ≠ [] ∧ ∀ l ∈ e.linesAll, charTrim l ≠ [] := by
  have hinv0 : PInv initPState :=
    ⟨by simp [initPState], by simp [initPState, emptyPEntry],
     fun hc => absurd hc (by simp [initPState])⟩
  unfold parseCatalogFull at h
  cases hgo : parseLinesGo initPState 1 lines with
  | error e => rw [hgo] at h; exact Except.noConfusion h
  | ok st =>
    rw [hgo] at h
    dsimp only [] at h
    obtain ⟨hinv, hS⟩ := parseLinesGo_inv lines initPState 1 st hgo hinv0
    split at h
    · exact Except.noConfusion h
    · split at h
      · exact Except.noConfusion h
      · simp only [Except.ok.injEq, Prod.mk.injEq] at h
        obtain ⟨rfl, rfl⟩ := h
        constructor
        · have := (tryFinish_S st).trans hS
          unfold pstateCache at this
          rw [this]
          simp [pstateCache, initPState, emptyPEntry]
        · exact tryFinish_done st hinv

theorem getLast_ne_blank (l : List (List Char))
    (h : ∀ x ∈ l, charTrim x ≠ []) : l.getLast? ≠ some ['\n'] := by
  intro hc
  exact h _ (List.mem_of_mem_getLast? hc) (by decide)

theorem toLines_clean (render : SEntry → List (List Char)) (m : SEntry)
    (hc : m.committed = true) (hm : m.modcount = 0) (hne : m.linesAll ≠ []) :
    toLines render (false || !m.committed) m = m.linesAll := by
  unfold toLines
  simp [hc, hm, List.isEmpty_iff, hne]

theorem emitOne_clean (render : SEntry → List (List Char)) (m : SEntry)
    (hrm : m.removeOnSync = false) (hc : m.committed = true)
    (hm : m.modcount = 0) (hne : m.linesAll ≠ [])
    (hlast : m.linesAll.getLast? ≠ some ['\n']) :
    emitOne render false m = m.linesAll ++ [['\n']] := by
  unfold emitOne addBlank
  rw [toLines_clean render m hc hm hne]
  simp [hrm, hlast]

/-- C1 (counterexample to the claim as stated): the catalog below is a
valid PO file (one header entry) with no obsolete message and is not
mutated after loading, yet the bytes `sync` writes differ from the
input bytes: the blank line before the header is dropped
(catalog.py:186-189 skips blank lines before any caching, and the
writer emits exactly one blank line after each entry).  Moreover, with
the catalog-level modification counter at zero, a non-forced `sync`
does not write at all (catalog.py:1128-1130).  The clean committed
header itself is reused byte-for-byte. -/
theorem roundtrip_counterexample :
    parseCatalog c1Input = .ok [c1Entry]
    ∧ c1Entry.obsolete = false
    ∧ SCatalog.sync ⟨[loadEntry c1Entry], true, 1⟩ false false (fun _ => [])
        = some ["msgid \"\"\n".toList, "msgstr \"\"\n".toList]
    ∧ ["msgid \"\"\n".toList, "msgstr \"\"\n".toList] ≠ c1Input
    ∧ SCatalog.sync ⟨[loadEntry c1Entry], true, 0⟩ false false (fun _ => [])
        = none :=
  ⟨rfl, rfl, rfl, by decide, rfl⟩

/-- C1 (amended): for any catalog parsed from lines, the cached line
images of the parsed entries (plus the trailing unemitted fragment)
are exactly the non-blank input lines, in order; and a non-forced
serialization of the freshly loaded, unmutated catalog outputs exactly
the cached lines of every entry, byte-for-byte (clean committed
entries reuse their caches, catalog.py:547), in obsolete-hoisted
order, with one blank separator line after each entry and no trailing
blank.  Thus the output equals the input up to blank-line
normalization, dropping of a trailing non-entry fragment, and the
obsolete reordering. -/
theorem roundtrip_amended :
    ∀ (lines : List (List Char)) (es : List PEntry)
      (leftover : List (List Char)) (render : SEntry → List (List Char))
      (noobsend : Bool),
      parseCatalogFull lines = .ok (es, leftover) →
      (es.map PEntry.linesAll).flatten ++ leftover
          = lines.filter (fun l => charTrim l ≠ [])
      ∧ syncOutput render false noobsend (es.map loadEntry)
          = assembleEntries (hoistObsolete noobsend (es.map loadEntry)) := by
  intro lines es leftover render noobsend hparse
  obtain ⟨hcache, hgood⟩ := parseCatalogFull_cache lines es leftover hparse
  refine ⟨hcache, ?_⟩
  set msgs := es.map loadEntry with hmsgs
  have hprops : ∀ m ∈ msgs, m.removeOnSync = false ∧ m.committed = true
      ∧ m.modcount = 0 ∧ m.linesAll ≠ []
      ∧ m.linesAll.getLast? ≠ some ['\n'] := by
    intro m hm
    rw [hmsgs] at hm
    obtain ⟨e, he, rfl⟩ := List.mem_map.mp hm
    obtain ⟨hne, hnb⟩ := hgood e he
    exact ⟨rfl, rfl, rfl, hne, getLast_ne_blank _ hnb⟩
  have hot : obstopOf msgs ≤ msgs.length := Nat.sub_le _ _
  have hA : (msgs.take (obstopOf msgs)).length = obstopOf msgs := by
    simp [Nat.min_eq_left hot]
  have h := syncLoop_main render false noobsend (msgs.take (obstopOf msgs))
    (msgs.length + obstopOf msgs + 1) [] []
    (msgs.drop (obstopOf msgs)) [] (by simp [hA]; omega)
  simp only [List.nil_append, List.append_nil, List.length_nil,
    Nat.zero_add, Nat.add_zero] at h
  rw [List.take_append_drop, hA, List.length_drop] at h
  have hlen : obstopOf msgs + (msgs.length - obstopOf msgs)
      = msgs.length := by omega
  rw [hlen] at h
  have hout := h.2 (fun m hm hrm => by
    obtain ⟨-, hc, hmod, hne, -⟩ := hprops m hm
    rw [toLines_clean render m hc hmod hne]
    exact hne)
  have hmap : ((msgs.take (obstopOf msgs)).filter
          (fun m => !movedB noobsend m)
        ++ (msgs.take (obstopOf msgs)).filter (movedB noobsend)
        ++ msgs.drop (obstopOf msgs)).map (emitOne render false)
      = ((msgs.take (obstopOf msgs)).filter (fun m => !movedB noobsend m)
        ++ (msgs.take (obstopOf msgs)).filter (movedB noobsend)
        ++ msgs.drop (obstopOf msgs)).map
          (fun m => m.linesAll ++ [['\n']]) := by
    refine List.map_congr_left (fun m hm => ?_)
    have hm' : m ∈ msgs := by
      rcases List.mem_append.mp hm with hm | hm
      · rcases List.mem_append.mp hm with hm | hm
        · exact List.take_subset _ _ (List.filter_subset' _ hm)
        · exact List.take_subset _ _ (List.filter_subset' _ hm)
      · exact List.drop_subset _ _ hm
    obtain ⟨hrm, hc, hmod, hne, hlast⟩ := hprops m hm'
    exact emitOne_clean render m hrm hc hmod hne hlast
  unfold syncOutput
  dsimp only []
  rw [hout, hmap]
  rfl

/-- Witness for the amended C1 statement at the concrete catalog
`c1Input`: the parsed-entry caches are the non-blank input lines and
the sync output is the reassembled caches. -/
theorem roundtrip_amended_witness :
    (([c1Entry].map PEntry.linesAll).flatten ++ []
        = c1Input.filter (fun l => charTrim l ≠ []))
    ∧ syncOutput (fun _ => []) false false ([c1Entry].map loadEntry)
        = assembleEntries (hoistObsolete false ([c1Entry].map loadEntry)) :=
  roundtrip_amended c1Input [c1Entry] [] (fun _ => []) false rfl

end Pology
